import Mathlib

/-!
A shallow embedding of the wikitext tokenizer in
`mwparserfromhell/parser/tokenizer.py`, together with proofs of the
behavioural properties claimed for it: round-tripping of token text,
backtracking discipline of the speculative template/entity sub-parses,
termination, template balance, text coalescing and frame-stack balance.

The Python class `Tokenizer` holds three pieces of mutable state: the
input `_text` (fixed for the duration of one `tokenize` call), the cursor
`_head`, and the stack `_stacks` of `(token list, context)` frames.  The
embedding fixes the input as an explicit `text : List Char` parameter and
threads the rest as a `St` value.  Exceptional control flow is made
explicit in the result type `Res`:

* `Res.bad st` is a raised `BadRoute` (the state records the mutations,
  including the `_pop()` performed in the `raise` argument, that happened
  before the raise);
* `Res.err e` is any other uncaught Python exception (`ValueError` from
  `int("")`, `AttributeError` from calling `.lower()` on the `END`
  sentinel, `IndexError` from popping or indexing an empty stack);
* `Res.nofuel` marks exhaustion of the explicit recursion fuel that the
  embedding adds in order to be a total function.  The termination
  theorem shows `tokenize`'s fuel is always sufficient, so `nofuel` never
  escapes.

The modules `contexts` and `tokens` imported by the source file, and the
standard-library table `htmlentitydefs.entitydefs`, are not part of the
source under verification; they are modelled from the spec (see the
individual doc comments below).
-/

namespace Tokenizer

/-- Modelled from the spec: the token catalog of the external `tokens`
module (spec §3).  `Text` carries a character-list payload; `HTMLEntityHex`
records the literal `x`/`X` marker character; all other variants are
payload-free markers. -/
inductive Token where
  | Text (text : List Char)
  | TemplateOpen
  | TemplateClose
  | TemplateParamSeparator
  | TemplateParamEquals
  | HTMLEntityStart
  | HTMLEntityNumeric
  | HTMLEntityHex (char : Char)
  | HTMLEntityEnd
deriving DecidableEq, Repr

/-- Modelled from the spec: the context bitmask of the external `contexts`
module (spec §3, §4.3–4.5).  `TEMPLATE_NAME`, `TEMPLATE_PARAM_KEY` and
`TEMPLATE_PARAM_VALUE` are independent bits; `TEMPLATE` ("inside a template
body") is their aggregate.  The aggregate reading is forced by the source's
use: `_parse_template` enters `_parse_until` with context `TEMPLATE_NAME`
alone, and the dispatch guard `self._context & contexts.TEMPLATE` as well as
the end-of-input guard must then fire inside templates (spec §4.3a/§4.3d,
and the worked example of spec §8). -/
def contexts.TEMPLATE_NAME : Nat := 1

/-- Modelled from the spec: see `contexts.TEMPLATE_NAME`. -/
def contexts.TEMPLATE_PARAM_KEY : Nat := 2

/-- Modelled from the spec: see `contexts.TEMPLATE_NAME`. -/
def contexts.TEMPLATE_PARAM_VALUE : Nat := 4

/-- Modelled from the spec: see `contexts.TEMPLATE_NAME`. -/
def contexts.TEMPLATE : Nat :=
  contexts.TEMPLATE_NAME + contexts.TEMPLATE_PARAM_KEY + contexts.TEMPLATE_PARAM_VALUE

/-- The mutable state of one `Tokenizer` instance, minus the fixed input
text: the read cursor `_head` and the frame stack `_stacks`.  The top frame
is the head of the list (Python keeps it at the end). -/
structure St where
  head : Nat
  frames : List (List Token × Nat)
deriving DecidableEq, Repr

/-- The Python exceptions the source can actually raise besides `BadRoute`:
`ValueError` from `int("")`, `AttributeError` from `.lower()` on a sentinel,
`IndexError` from `list.pop()` / `list[-1]` on an empty list. -/
inductive PyErr where
  | valueError
  | attributeError
  | indexError
deriving DecidableEq, Repr

/-- Result of running a piece of the tokenizer: normal return carrying the
updated state, a raised `BadRoute`, an uncaught Python exception, or
exhaustion of the embedding's recursion fuel. -/
inductive Res (α : Type) where
  | ok (a : α) (st : St)
  | bad (st : St)
  | err (e : PyErr)
  | nofuel
deriving DecidableEq, Repr

/-- Result of `_read`: the `START`/`END` sentinels are distinct from every
character (spec §3: "three-state result type for character lookahead"). -/
inductive ReadChar where
  | START
  | chr (c : Char)
  | END
deriving DecidableEq, Repr

/-- `_read(delta, wrap)`: the character at `_head + delta`, `START` for an
out-of-range negative index, `END` at or past the end of the input.  The
negative-with-`wrap` branch mirrors Python's negative list indexing; no call
site in the source uses it. -/
def read (text : List Char) (head : Nat) (delta : Int) (wrap : Bool) : ReadChar :=
  let index : Int := (head : Int) + delta
  if index < 0 ∧ (¬ wrap ∨ text.length < index.natAbs) then .START
  else if (text.length : Int) ≤ index then .END
  else if index < 0 then .chr (text.getD (text.length - index.natAbs) ' ')
  else .chr (text.getD index.toNat ' ')

/-- `_at_head(chars)`: every character of `chars` matches the buffer at
`head, head+1, …` (sentinels never equal a character). -/
def at_head (text : List Char) (head : Nat) (chars : List Char) : Bool :=
  (List.range chars.length).all fun i => read text head (i : Int) false == .chr (chars.getD i ' ')

/-- `_push(context)`. -/
def push (context : Nat) (st : St) : St :=
  { st with frames := ([], context) :: st.frames }

/-- `_pop()`: `IndexError` on an empty stack, as Python's `list.pop`. -/
def pop (st : St) : Res (List Token) :=
  match st.frames with
  | [] => .err .indexError
  | (tokens, _) :: rest => .ok tokens { st with frames := rest }

/-- The body of `_write` acting on one frame's token list: coalesce a new
`Text` token into a trailing `Text` token, otherwise append. -/
def write_token (token : Token) (stack : List Token) : List Token :=
  match stack.getLast? with
  | none => [token]
  | some last =>
    match token, last with
    | .Text t, .Text lt => stack.dropLast ++ [.Text (lt ++ t)]
    | _, _ => stack ++ [token]

/-- `_write(token)` on the active frame (every call site uses the default
`stack=None`, i.e. the top frame); reading `_stack` of an empty frame stack
is Python's `IndexError`. -/
def write (token : Token) (st : St) : Res Unit :=
  match st.frames with
  | [] => .err .indexError
  | (stack, context) :: rest =>
    .ok () { st with frames := (write_token token stack, context) :: rest }

/-- `_write_all(tokenlist)`: extend the active frame without coalescing. -/
def write_all (tokenlist : List Token) (st : St) : Res Unit :=
  match st.frames with
  | [] => .err .indexError
  | (stack, context) :: rest =>
    .ok () { st with frames := (stack ++ tokenlist, context) :: rest }

/-- The `_context` property (context of the top frame).  On an empty frame
stack Python would raise `IndexError`; that state is unreachable at every
use (the dispatch loop runs with its own frame pushed), and the embedding
returns `0` there. -/
def context (st : St) : Nat :=
  match st.frames with
  | [] => 0
  | (_, c) :: _ => c

/-- The `_context` property setter. -/
def set_context (value : Nat) (st : St) : St :=
  { st with
    frames :=
      match st.frames with
      | [] => []
      | (stack, _) :: rest => (stack, value) :: rest }

/-- The `_stack` property (token list of the top frame); like `context`,
the empty-stack default is unreachable at every use. -/
def stack (st : St) : List Token :=
  match st.frames with
  | [] => []
  | (s, _) :: _ => s

/-- `raise BadRoute(self._pop())`: the pop happens before the raise, so the
raised state already has the abandoned frame removed. -/
def raise_bad (st : St) : Res Unit :=
  match st.frames with
  | [] => .err .indexError
  | _ :: rest => .bad { st with frames := rest }

/-- `_verify_context_pre_stop`: at end of input inside a template, fail the
frame. -/
def verify_context_pre_stop (text : List Char) (st : St) : Res Unit :=
  if read text st.head 0 false = .END then
    if context st &&& contexts.TEMPLATE ≠ 0 then raise_bad st
    else .ok () st
  else .ok () st

/-- The `stop` argument of `_parse_until`: either the `END` sentinel object
(top level) or a literal character sequence such as `"}}"`. -/
inductive Stop where
  | END
  | lit (s : List Char)
deriving DecidableEq, Repr

/-- `_catch_stop(stop)`: true (with the cursor advanced by `len(stop) - 1`
for a literal stop) when the loop should return.  For the non-iterable
`END` sentinel the identity test `self._read() is stop` can never succeed
after the initial `END` check, so that branch returns false. -/
def catch_stop (text : List Char) (stop : Stop) (st : St) : Bool × St :=
  if read text st.head 0 false = .END then (true, st)
  else
    match stop with
    | .END => (false, st)
    | .lit s =>
      if (List.range s.length).all (fun i => read text st.head (i : Int) false == .chr (s.getD i ' ')) then
        (true, { st with head := st.head + s.length - 1 })
      else (false, st)

/-- Python's `str.strip()` restricted to what the source needs: drop
whitespace from both ends (the source only tests the result for
truthiness). -/
def strip (cs : List Char) : List Char :=
  ((cs.dropWhile Char.isWhitespace).reverse.dropWhile Char.isWhitespace).reverse

/-- `_verify_context_post_stop`: while scanning a template name, a trimmed
non-empty last text token ending in a newline followed by anything other
than `|`, `=` or a newline fails the frame. -/
def verify_context_post_stop (text : List Char) (st : St) : Res Unit :=
  if context st &&& contexts.TEMPLATE_NAME ≠ 0 ∧ stack st ≠ [] then
    match (stack st).getLast? with
    | some (.Text t) =>
      if strip t ≠ [] ∧ t.getLast? = some '\n' then
        if read text st.head 0 false ∉ [ReadChar.chr '|', ReadChar.chr '=', ReadChar.chr '\n'] then
          raise_bad st
        else .ok () st
      else .ok () st
    | _ => .ok () st
  else .ok () st

/-- `_handle_template_param`: clear `TEMPLATE_NAME` / `TEMPLATE_PARAM_VALUE`
if set, set `TEMPLATE_PARAM_KEY`, write a separator. -/
def handle_template_param (st : St) : Res Unit :=
  let c := context st
  let c := if c &&& contexts.TEMPLATE_NAME ≠ 0 then c ^^^ contexts.TEMPLATE_NAME else c
  let c := if c &&& contexts.TEMPLATE_PARAM_VALUE ≠ 0 then c ^^^ contexts.TEMPLATE_PARAM_VALUE else c
  write .TemplateParamSeparator (set_context (c ||| contexts.TEMPLATE_PARAM_KEY) st)

/-- `_handle_template_param_value`: swap `TEMPLATE_PARAM_KEY` for
`TEMPLATE_PARAM_VALUE`, write an equals marker. -/
def handle_template_param_value (st : St) : Res Unit :=
  write .TemplateParamEquals
    (set_context ((context st ^^^ contexts.TEMPLATE_PARAM_KEY) ||| contexts.TEMPLATE_PARAM_VALUE) st)

/-- `string.digits`. -/
def digits : List Char := "0123456789".toList

/-- `string.hexdigits`. -/
def hexdigits : List Char := "0123456789abcdefABCDEF".toList

/-- `string.ascii_letters`. -/
def ascii_letters : List Char := "abcdefghijklmnopqrstuvwxyzABCDEFGHIJKLMNOPQRSTUVWXYZ".toList

/-- Value of one hexadecimal digit character. -/
def hex_digit_val (c : Char) : Nat :=
  if '0' ≤ c ∧ c ≤ '9' then c.toNat - '0'.toNat
  else if 'a' ≤ c ∧ c ≤ 'f' then c.toNat - 'a'.toNat + 10
  else if 'A' ≤ c ∧ c ≤ 'F' then c.toNat - 'A'.toNat + 10
  else 0

/-- Python `int(text)` / `int(text, 16)` applied to the accumulated entity
digits: `ValueError` (here `none`) on the empty string.  The scan loop only
accumulates characters of the valid alphabet, so no other failure mode of
`int` is reachable. -/
def py_int (hexadecimal : Bool) (cs : List Char) : Option Nat :=
  if cs = [] then none
  else some (cs.foldl (fun n c => n * (if hexadecimal then 16 else 10) + hex_digit_val c) 0)

/-- The payload of `tokens.Text(text=self._read())`: both call sites are
guarded by `_at_head`, so the sentinel branch is unreachable. -/
def read_chars : ReadChar → List Char
  | .chr c => [c]
  | _ => []

/-- The `while True` scanning loop of `_parse_entity`: accumulate valid
characters until `;`, then validate (numeric bounds, or membership in the
entity table) and write the text and end marker, raising `BadRoute` on any
failure.  `entitydefs` is the external named-entity table (spec §6),
passed as a parameter. -/
def entity_scan (fuel : Nat) (text : List Char) (entitydefs : List (List Char))
    (numeric hexadecimal : Bool) (valid : List Char) (acc : List Char) (st : St) : Res Unit :=
  match fuel with
  | 0 => .nofuel
  | fuel + 1 =>
    if at_head text st.head [';'] then
      if numeric then
        match py_int hexadecimal acc with
        | none => .err .valueError
        | some test =>
          if test < 1 ∨ 0x10FFFF < test then raise_bad st
          else
            match write (.Text acc) st with
            | .ok _ st => write .HTMLEntityEnd st
            | r => r
      else
        if acc ∈ entitydefs then
          match write (.Text acc) st with
          | .ok _ st => write .HTMLEntityEnd st
          | r => r
        else raise_bad st
    else
      match read text st.head 0 false with
      | .chr ch =>
        if ch ∈ valid then
          entity_scan fuel text entitydefs numeric hexadecimal valid (acc ++ [ch])
            { st with head := st.head + 1 }
        else raise_bad st
      | _ => raise_bad st

/-- The `try:` block of `_parse_entity` (entered with the cursor already
advanced past `&`): push the entity frame, write `HTMLEntityStart`,
classify the form (named / numeric / hexadecimal, writing the markers and
advancing past them), then run the scanning loop.  Calling `.lower()` on
the `END` sentinel returned by `_read(1)` is an `AttributeError`. -/
def parse_entity_body (fuel : Nat) (text : List Char) (entitydefs : List (List Char)) (st : St) :
    Res Unit :=
  match write .HTMLEntityStart (push 0 st) with
  | .ok _ st =>
    if at_head text st.head ['#'] then
      match write .HTMLEntityNumeric st with
      | .ok _ st =>
        match read text st.head 1 false with
        | .chr c =>
          if c.toLower = 'x' then
            match write (.HTMLEntityHex c) st with
            | .ok _ st =>
              entity_scan fuel text entitydefs true true hexdigits [] { st with head := st.head + 2 }
            | r => r
          else
            entity_scan fuel text entitydefs true false digits [] { st with head := st.head + 1 }
        | _ => .err .attributeError
      | r => r
    else
      entity_scan fuel text entitydefs false false (digits ++ ascii_letters) [] st
  | r => r

/-- `_parse_entity`: record the rollback point, advance past `&`, run the
speculative body; on `BadRoute` restore the cursor and write the single
`&` character as text, on success promote the popped entity frame into the
parent via `_write_all`. -/
def parse_entity (fuel : Nat) (text : List Char) (entitydefs : List (List Char)) (st : St) :
    Res Unit :=
  match fuel with
  | 0 => .nofuel
  | fuel + 1 =>
    let reset := st.head
    match parse_entity_body fuel text entitydefs { st with head := st.head + 1 } with
    | .bad st1 => write (.Text (read_chars (read text reset 0 false))) { st1 with head := reset }
    | .ok _ st1 =>
      match pop st1 with
      | .ok tokenlist st2 => write_all tokenlist st2
      | .bad s => .bad s
      | .err e => .err e
      | .nofuel => .nofuel
    | .err e => .err e
    | .nofuel => .nofuel

mutual

/-- `_parse_template`: record the rollback point, advance past `{{`,
speculatively parse until `}}` in context `TEMPLATE_NAME`; on `BadRoute`
restore the cursor and write the single `{` character as text, on success
write `TemplateOpen`, the returned tokens, `TemplateClose`. -/
def parse_template (fuel : Nat) (text : List Char) (entitydefs : List (List Char)) (st : St) :
    Res Unit :=
  match fuel with
  | 0 => .nofuel
  | fuel + 1 =>
    let reset := st.head
    match parse_until fuel text entitydefs (.lit ['}', '}']) contexts.TEMPLATE_NAME
        { st with head := st.head + 2 } with
    | .bad st1 => write (.Text (read_chars (read text reset 0 false))) { st1 with head := reset }
    | .ok template st1 =>
      match write .TemplateOpen st1 with
      | .ok _ st2 =>
        match write_all template st2 with
        | .ok _ st3 => write .TemplateClose st3
        | r => r
      | r => r
    | .err e => .err e
    | .nofuel => .nofuel

/-- `_parse_until(stop, context)`: push a frame and run the dispatch
loop. -/
def parse_until (fuel : Nat) (text : List Char) (entitydefs : List (List Char)) (stop : Stop)
    (context : Nat) (st : St) : Res (List Token) :=
  match fuel with
  | 0 => .nofuel
  | fuel + 1 => parse_until_loop fuel text entitydefs stop (push context st)

/-- The `while True` dispatch loop of `_parse_until`: pre-stop check, stop
check (returning the popped frame), post-stop check, construct dispatch in
priority order, cursor advance, repeat. -/
def parse_until_loop (fuel : Nat) (text : List Char) (entitydefs : List (List Char)) (stop : Stop)
    (st : St) : Res (List Token) :=
  match fuel with
  | 0 => .nofuel
  | fuel + 1 =>
    match verify_context_pre_stop text st with
    | .ok _ st =>
      match catch_stop text stop st with
      | (true, st) => pop st
      | (false, st) =>
        match verify_context_post_stop text st with
        | .ok _ st =>
          match
            (if at_head text st.head ['{', '{'] then
              parse_template fuel text entitydefs st
            else if at_head text st.head ['|'] ∧ context st &&& contexts.TEMPLATE ≠ 0 then
              handle_template_param st
            else if at_head text st.head ['='] ∧ context st &&& contexts.TEMPLATE_PARAM_KEY ≠ 0 then
              handle_template_param_value st
            else if at_head text st.head ['&'] then
              parse_entity fuel text entitydefs st
            else
              write (.Text (read_chars (read text st.head 0 false))) st) with
          | .ok _ st => parse_until_loop fuel text entitydefs stop { st with head := st.head + 1 }
          | .bad s => .bad s
          | .err e => .err e
          | .nofuel => .nofuel
        | .bad s => .bad s
        | .err e => .err e
        | .nofuel => .nofuel
    | .bad s => .bad s
    | .err e => .err e
    | .nofuel => .nofuel

end

/-- Fuel with which `tokenize` runs its top-level `_parse_until`.  The
termination theorem (claim C3) shows this is always enough: the recursion
of the source is bounded because every dispatch-loop iteration moves the
cursor forward and every nested speculative parse starts strictly past its
caller's cursor. -/
def initial_fuel (text : List Char) : Nat := 4 * text.length + 16

/-- `tokenize(text)`: run one top-level `_parse_until` with the `END`
sentinel stop and context `0` on a fresh `Tokenizer` state. -/
def tokenize (text : List Char) (entitydefs : List (List Char)) : Res (List Token) :=
  parse_until (initial_fuel text) text entitydefs .END 0 { head := 0, frames := [] }

/-! ## Observables used by the claims -/

/-- The textual content of one token: the content of a `Text` token, and
the literal delimiter implied by each marker token (claim C1). -/
def token_chars : Token → List Char
  | .Text t => t
  | .TemplateOpen => ['{', '{']
  | .TemplateClose => ['}', '}']
  | .TemplateParamSeparator => ['|']
  | .TemplateParamEquals => ['=']
  | .HTMLEntityStart => ['&']
  | .HTMLEntityNumeric => ['#']
  | .HTMLEntityHex c => [c]
  | .HTMLEntityEnd => [';']

/-- Concatenated textual content of a token sequence. -/
def contents (toks : List Token) : List Char := (toks.map token_chars).flatten

/-- Whether a token is a `Text` token. -/
def is_text : Token → Bool
  | .Text _ => true
  | _ => false

/-- No two adjacent tokens of the sequence are both `Text` (claim C9). -/
def no_adjacent_text (toks : List Token) : Prop :=
  toks.Chain' fun a b => is_text a = false ∨ is_text b = false

/-- Bracket weight of a token: `TemplateOpen` opens, `TemplateClose`
closes, everything else is neutral. -/
def tok_delta : Token → Int
  | .TemplateOpen => 1
  | .TemplateClose => -1
  | _ => 0

/-- Net bracket weight of a token sequence. -/
def net_depth (toks : List Token) : Int := (toks.map tok_delta).sum

/-- `TemplateOpen`/`TemplateClose` markers are balanced and properly
nested: the whole sequence has net weight zero and no prefix closes more
templates than it has opened (claim C4). -/
def balanced (toks : List Token) : Prop :=
  net_depth toks = 0 ∧ ∀ p s, toks = p ++ s → 0 ≤ net_depth p

/-- The input characters from position `a` (inclusive) to `b` (exclusive). -/
def slice (text : List Char) (a b : Nat) : List Char := (text.drop a).take (b - a)

/-- Whether running a piece of the tokenizer finished on its fuel budget
(with any outcome: normal return, `BadRoute`, or a Python exception), as
opposed to exhausting the fuel the embedding adds (claim C3). -/
def Res.completed : Res α → Bool
  | .nofuel => false
  | _ => true

/-- Every frame on the stack holds a token sequence free of adjacent
`Text` tokens — the spec's frame invariant, at every point during
tokenization (claim C9). -/
def frames_ok (st : St) : Prop := ∀ p ∈ st.frames, no_adjacent_text p.1

/-! ## Reading and slicing the input -/

theorem read_eq (text : List Char) (head d : Nat) :
    read text head (d : Int) false =
      if head + d < text.length then .chr (text.getD (head + d) ' ') else .END := by
  unfold read
  have h0 : ¬ (((head : Int) + (d : Int)) < 0 ∧
      ((¬ ((false : Bool) = true)) ∨ (text.length : Nat) < ((head : Int) + (d : Int)).natAbs)) :=
    fun h => absurd h.1 (by omega)
  rw [if_neg h0]
  by_cases h : head + d < text.length
  · rw [if_neg (by omega), if_neg (by omega), if_pos h]
    have ht : ((head : Int) + (d : Int)).toNat = head + d := by omega
    rw [ht]
  · rw [if_pos (by omega), if_neg h]

theorem read_zero (text : List Char) (head : Nat) :
    read text head 0 false =
      if head < text.length then .chr (text.getD head ' ') else .END := by
  have := read_eq text head 0
  norm_num at this
  convert this using 2
  norm_num

theorem read_shift (text : List Char) (head d : Nat) :
    read text head (d : Int) false = read text (head + d) 0 false := by
  rw [read_eq, read_zero]

theorem read_chr_iff {text : List Char} {head d : Nat} {c : Char} :
    read text head (d : Int) false = .chr c ↔ head + d < text.length ∧ text.getD (head + d) ' ' = c := by
  rw [read_eq]
  by_cases h : head + d < text.length <;> simp [h]

theorem read_zero_chr_iff {text : List Char} {head : Nat} {c : Char} :
    read text head 0 false = .chr c ↔ head < text.length ∧ text.getD head ' ' = c := by
  rw [read_zero]
  by_cases h : head < text.length <;> simp [h]

theorem read_END_iff {text : List Char} {head d : Nat} :
    read text head (d : Int) false = .END ↔ text.length ≤ head + d := by
  rw [read_eq]
  by_cases h : head + d < text.length <;> simp [h]
  omega

theorem read_zero_END_iff {text : List Char} {head : Nat} :
    read text head 0 false = .END ↔ text.length ≤ head := by
  rw [read_zero]
  by_cases h : head < text.length <;> simp [h]
  omega

theorem at_head_iff {text : List Char} {head : Nat} {chars : List Char} :
    at_head text head chars = true ↔
      ∀ i, i < chars.length → read text head (i : Int) false = .chr (chars.getD i ' ') := by
  unfold at_head
  rw [List.all_eq_true]
  constructor
  · intro h i hi
    exact beq_iff_eq.mp (h i (List.mem_range.mpr hi))
  · intro h i hi
    exact beq_iff_eq.mpr (h i (List.mem_range.mp hi))

theorem at_head_one {text : List Char} {head : Nat} {c : Char} :
    at_head text head [c] = true ↔ read text head 0 false = .chr c := by
  rw [at_head_iff]
  constructor
  · intro h
    simpa using h 0 (by simp)
  · intro h i hi
    have hi0 : i = 0 := by simpa using hi
    subst hi0
    simpa using h

theorem at_head_two {text : List Char} {head : Nat} {a b : Char} :
    at_head text head [a, b] = true ↔
      read text head 0 false = .chr a ∧ read text head 1 false = .chr b := by
  rw [at_head_iff]
  constructor
  · intro h
    refine ⟨?_, ?_⟩
    · simpa using h 0 (by simp)
    · simpa using h 1 (by simp)
  · rintro ⟨h0, h1⟩ i hi
    match i, hi with
    | 0, _ => simpa using h0
    | 1, _ => simpa using h1

theorem drop_eq_getD_cons {text : List Char} {h : Nat} (hlt : h < text.length) :
    text.drop h = text.getD h ' ' :: text.drop (h + 1) := by
  have hg : text.getD h ' ' = text[h] := by
    rw [List.getD_eq_getElem?_getD, List.getElem?_eq_getElem hlt]
    rfl
  rw [hg, List.drop_eq_getElem_cons hlt]

theorem slice_self (text : List Char) (a : Nat) : slice text a a = [] := by
  simp [slice]

theorem slice_append {text : List Char} {a b c : Nat} (hab : a ≤ b) (hbc : b ≤ c) :
    slice text a b ++ slice text b c = slice text a c := by
  unfold slice
  have hb : b - a + (c - b) = c - a := by omega
  have hdrop : text.drop b = (text.drop a).drop (b - a) := by
    rw [List.drop_drop]
    congr 1
    omega
  rw [hdrop, ← hb, List.take_add]

theorem slice_drop {text : List Char} {a b : Nat} (hab : a ≤ b) :
    slice text a b ++ text.drop b = text.drop a := by
  unfold slice
  have hdrop : text.drop b = (text.drop a).drop (b - a) := by
    rw [List.drop_drop]
    congr 1
    omega
  rw [hdrop, List.take_append_drop]

theorem slice_cons {text : List Char} {a b : Nat} (ha : a < text.length) (hab : a < b) :
    slice text a b = text.getD a ' ' :: slice text a.succ b := by
  unfold slice
  rw [drop_eq_getD_cons ha]
  have : b - a = (b - (a + 1)) + 1 := by omega
  rw [this, List.take_succ_cons]

theorem slice_one {text : List Char} {a : Nat} (ha : a < text.length) :
    slice text a (a + 1) = [text.getD a ' '] := by
  rw [slice_cons ha (by omega)]
  simp [slice_self]

theorem drop_of_ge {text : List Char} {a : Nat} (ha : text.length ≤ a) :
    text.drop a = [] :=
  List.drop_eq_nil_iff.mpr ha

/-! ## Contents, coalescing and balance algebra -/

theorem contents_nil : contents [] = [] := rfl

theorem contents_append (a b : List Token) : contents (a ++ b) = contents a ++ contents b := by
  simp [contents]

theorem contents_single (t : Token) : contents [t] = token_chars t := by
  simp [contents]

theorem contents_write_token (tok : Token) (fr : List Token) :
    contents (write_token tok fr) = contents fr ++ token_chars tok := by
  induction fr using List.reverseRecOn with
  | nil => cases tok <;> simp [write_token, contents, token_chars]
  | append_singleton init last _ =>
    unfold write_token
    rw [List.getLast?_concat]
    cases tok <;> cases last <;>
      simp [List.dropLast_concat, contents_append, contents_single, contents, token_chars,
        List.append_assoc]

theorem write_token_cases (tok : Token) (fr : List Token) :
    (∃ init lt t, tok = .Text t ∧ fr = init ++ [Token.Text lt] ∧
      write_token tok fr = init ++ [Token.Text (lt ++ t)]) ∨
    ((∀ x ∈ fr.getLast?, is_text x = false ∨ is_text tok = false) ∧
      write_token tok fr = fr ++ [tok]) := by
  induction fr using List.reverseRecOn with
  | nil =>
    right
    refine ⟨by simp, ?_⟩
    simp [write_token]
  | append_singleton init last ih =>
    unfold write_token
    rw [List.getLast?_concat]
    cases tok <;> cases last <;>
      try (right; exact ⟨by simp [List.getLast?_concat, is_text], rfl⟩)
    rename_i t lt
    left
    exact ⟨init, lt, t, rfl, rfl, by rw [List.dropLast_concat]⟩

theorem write_token_of_marker {tok : Token} (h : is_text tok = false) (fr : List Token) :
    write_token tok fr = fr ++ [tok] := by
  rcases write_token_cases tok fr with ⟨init, lt, t, htok, _, _⟩ | ⟨_, heq⟩
  · subst htok
    simp [is_text] at h
  · exact heq

theorem no_adjacent_text_nil : no_adjacent_text [] := List.chain'_nil

theorem no_adjacent_text_single (t : Token) : no_adjacent_text [t] := List.chain'_singleton t

theorem no_adjacent_text_append {a b : List Token} (ha : no_adjacent_text a)
    (hb : no_adjacent_text b)
    (hx : ∀ x ∈ a.getLast?, ∀ y ∈ b.head?, is_text x = false ∨ is_text y = false) :
    no_adjacent_text (a ++ b) :=
  List.chain'_append.mpr ⟨ha, hb, hx⟩

theorem no_adjacent_text_concat {a : List Token} {tok : Token} (ha : no_adjacent_text a)
    (hx : ∀ x ∈ a.getLast?, is_text x = false ∨ is_text tok = false) :
    no_adjacent_text (a ++ [tok]) := by
  refine no_adjacent_text_append ha (no_adjacent_text_single tok) ?_
  intro x hxl y hy
  simp only [List.head?_cons, Option.mem_def, Option.some.injEq] at hy
  subst hy
  exact hx x hxl

theorem no_adjacent_text_write_token (tok : Token) {fr : List Token}
    (h : no_adjacent_text fr) : no_adjacent_text (write_token tok fr) := by
  rcases write_token_cases tok fr with ⟨init, lt, t, htok, hfr, heq⟩ | ⟨hlast, heq⟩
  · rw [heq]
    subst hfr
    rw [no_adjacent_text, List.chain'_append] at h ⊢
    refine ⟨h.1, List.chain'_singleton _, ?_⟩
    intro x hx y hy
    simp only [List.head?_cons, Option.mem_def, Option.some.injEq] at hy
    subst hy
    rcases h.2.2 x hx (Token.Text lt) (by simp) with hl | hr
    · exact Or.inl hl
    · simp [is_text] at hr
  · rw [heq]
    exact no_adjacent_text_concat h hlast

theorem net_depth_nil : net_depth [] = 0 := rfl

theorem net_depth_append (a b : List Token) : net_depth (a ++ b) = net_depth a + net_depth b := by
  simp [net_depth]

theorem net_depth_single (t : Token) : net_depth [t] = tok_delta t := by
  simp [net_depth]

theorem net_depth_cons (t : Token) (l : List Token) :
    net_depth (t :: l) = tok_delta t + net_depth l := by
  simp [net_depth]

theorem net_depth_zeros {l : List Token} (h : ∀ t ∈ l, tok_delta t = 0) : net_depth l = 0 := by
  unfold net_depth
  rw [List.sum_eq_zero]
  intro x hx
  rcases List.mem_map.mp hx with ⟨t, ht, rfl⟩
  exact h t ht

theorem balanced_nil : balanced [] := by
  refine ⟨rfl, ?_⟩
  intro p s h
  have hp : p = [] := by
    rcases List.append_eq_nil.mp h.symm with ⟨h1, _⟩
    exact h1
  simp [hp, net_depth]

theorem balanced_append {a b : List Token} (ha : balanced a) (hb : balanced b) :
    balanced (a ++ b) := by
  refine ⟨by rw [net_depth_append, ha.1, hb.1]; simp, ?_⟩
  intro p s h
  rcases List.append_eq_append_iff.mp h.symm with ⟨x, hx1, _⟩ | ⟨c, hc1, hc2⟩
  · exact ha.2 p x hx1
  · rw [hc1, net_depth_append, ha.1, zero_add]
    exact hb.2 c s hc2

theorem balanced_zeros {l : List Token} (h : ∀ t ∈ l, tok_delta t = 0) : balanced l := by
  refine ⟨net_depth_zeros h, ?_⟩
  intro p s hps
  have : ∀ t ∈ p, tok_delta t = 0 := by
    intro t ht
    exact h t (by rw [hps]; exact List.mem_append_left s ht)
  rw [net_depth_zeros this]

theorem balanced_single {t : Token} (h : tok_delta t = 0) : balanced [t] :=
  balanced_zeros (by intro x hx; simp at hx; subst hx; exact h)

theorem balanced_concat_iff (init : List Token) (t : Token) :
    balanced (init ++ [t]) ↔
      (net_depth init + tok_delta t = 0 ∧ ∀ p s, init = p ++ s → 0 ≤ net_depth p) := by
  constructor
  · rintro ⟨hnet, hpre⟩
    rw [net_depth_append, net_depth_single] at hnet
    refine ⟨hnet, ?_⟩
    intro p s hps
    exact hpre p (s ++ [t]) (by rw [hps, List.append_assoc])
  · rintro ⟨hnet, hpre⟩
    refine ⟨by rw [net_depth_append, net_depth_single, hnet], ?_⟩
    intro p s hps
    rcases List.append_eq_append_iff.mp hps.symm with ⟨x, hx1, _⟩ | ⟨c, hc1, hc2⟩
    · exact hpre p x hx1
    · rcases c with _ | ⟨a, c'⟩
      · rw [List.append_nil] at hc1
        rw [hc1]
        have := hpre init [] (by simp)
        omega
      · rw [List.cons_append] at hc2
        injection hc2 with hta hrest
        have hc' : c' = [] := by
          rcases List.append_eq_nil.mp hrest.symm with ⟨h1, _⟩
          exact h1
        subst hc'
        rw [hc1, ← hta]
        rw [net_depth_append, net_depth_single]
        have h0 := hpre init [] (by simp)
        omega

theorem balanced_write_token {tok : Token} (hz : tok_delta tok = 0) {fr : List Token}
    (h : balanced fr) : balanced (write_token tok fr) := by
  rcases write_token_cases tok fr with ⟨init, lt, t, htok, hfr, heq⟩ | ⟨_, heq⟩
  · rw [heq]
    subst hfr
    rw [balanced_concat_iff] at h ⊢
    simpa [tok_delta] using h
  · rw [heq]
    exact balanced_append h (balanced_single hz)

theorem balanced_wrap {m : List Token} (h : balanced m) :
    balanced (Token.TemplateOpen :: (m ++ [Token.TemplateClose])) := by
  refine ⟨?_, ?_⟩
  · rw [net_depth_cons, net_depth_append, h.1, net_depth_single]
    simp [tok_delta]
  · intro p s hps
    cases p with
    | nil => simp [net_depth]
    | cons a p' =>
      rw [List.cons_append] at hps
      injection hps with ha hps'
      subst ha
      rw [net_depth_cons]
      rcases List.append_eq_append_iff.mp hps' with ⟨x, hx1, hx2⟩ | ⟨c, hc1, _⟩
      · rcases x with _ | ⟨b, x'⟩
        · rw [List.append_nil] at hx1
          rw [hx1, h.1]
          simp [tok_delta]
        · rw [List.cons_append] at hx2
          injection hx2 with hb hrest
          have hx' : x' = [] := by
            rcases List.append_eq_nil.mp hrest.symm with ⟨h1, _⟩
            exact h1
          subst hx'
          rw [hx1, ← hb]
          rw [net_depth_append, h.1, net_depth_single]
          simp [tok_delta]
      · have h0 := h.2 p' c hc1
        simp only [tok_delta]
        omega

theorem no_adjacent_text_wrap {m : List Token} (h : no_adjacent_text m) :
    no_adjacent_text (Token.TemplateOpen :: (m ++ [Token.TemplateClose])) := by
  rw [no_adjacent_text, List.chain'_cons']
  constructor
  · intro y _
    exact Or.inl (by simp [is_text])
  · refine no_adjacent_text_append h (no_adjacent_text_single _) ?_
    intro x _ y hy
    simp only [List.head?_cons, Option.mem_def, Option.some.injEq] at hy
    subst hy
    exact Or.inr (by simp [is_text])

/-! ## Context bit facts -/

theorem or_key_and_template (x : Nat) :
    (x ||| contexts.TEMPLATE_PARAM_KEY) &&& contexts.TEMPLATE ≠ 0 := by
  show (x ||| 2) &&& 7 ≠ 0
  intro h
  have h1 : ((x ||| 2) &&& 7).testBit 1 = true := by
    rw [Nat.testBit_and, Nat.testBit_or]
    simp [show Nat.testBit 2 1 = true from by decide, show Nat.testBit 7 1 = true from by decide]
  rw [h] at h1
  simp at h1

theorem or_value_and_template (x : Nat) :
    (x ||| contexts.TEMPLATE_PARAM_VALUE) &&& contexts.TEMPLATE ≠ 0 := by
  show (x ||| 4) &&& 7 ≠ 0
  intro h
  have h1 : ((x ||| 4) &&& 7).testBit 2 = true := by
    rw [Nat.testBit_and, Nat.testBit_or]
    simp [show Nat.testBit 4 2 = true from by decide, show Nat.testBit 7 2 = true from by decide]
  rw [h] at h1
  simp at h1

/-! ## Small-step characterisations of the state primitives -/

theorem pop_cons {st : St} {fr : List Token} {c : Nat} {rest : List (List Token × Nat)}
    (h : st.frames = (fr, c) :: rest) : pop st = .ok fr ⟨st.head, rest⟩ := by
  simp [pop, h]

theorem write_cons {st : St} {fr : List Token} {c : Nat} {rest : List (List Token × Nat)}
    (h : st.frames = (fr, c) :: rest) (tok : Token) :
    write tok st = .ok () ⟨st.head, (write_token tok fr, c) :: rest⟩ := by
  simp [write, h]

theorem write_all_cons {st : St} {fr : List Token} {c : Nat} {rest : List (List Token × Nat)}
    (h : st.frames = (fr, c) :: rest) (tokenlist : List Token) :
    write_all tokenlist st = .ok () ⟨st.head, (fr ++ tokenlist, c) :: rest⟩ := by
  simp [write_all, h]

theorem raise_bad_cons {st : St} {fr : List Token} {c : Nat} {rest : List (List Token × Nat)}
    (h : st.frames = (fr, c) :: rest) : raise_bad st = .bad ⟨st.head, rest⟩ := by
  simp [raise_bad, h]

theorem context_cons {st : St} {fr : List Token} {c : Nat} {rest : List (List Token × Nat)}
    (h : st.frames = (fr, c) :: rest) : context st = c := by
  simp [context, h]

theorem stack_cons {st : St} {fr : List Token} {c : Nat} {rest : List (List Token × Nat)}
    (h : st.frames = (fr, c) :: rest) : stack st = fr := by
  simp [stack, h]

theorem set_context_cons {st : St} {fr : List Token} {c : Nat} {rest : List (List Token × Nat)}
    (h : st.frames = (fr, c) :: rest) (v : Nat) :
    set_context v st = ⟨st.head, (fr, v) :: rest⟩ := by
  simp [set_context, h]

theorem read_chars_chr (c : Char) : read_chars (.chr c) = [c] := rfl

theorem handle_template_param_cons {st : St} {fr : List Token} {c : Nat}
    {rest : List (List Token × Nat)} (h : st.frames = (fr, c) :: rest) :
    ∃ c', handle_template_param st =
        .ok () ⟨st.head, (write_token .TemplateParamSeparator fr, c') :: rest⟩ ∧
      c' &&& contexts.TEMPLATE ≠ 0 := by
  simp only [handle_template_param, context_cons h, set_context_cons h]
  exact ⟨_, write_cons rfl .TemplateParamSeparator, or_key_and_template _⟩

theorem handle_template_param_value_cons {st : St} {fr : List Token} {c : Nat}
    {rest : List (List Token × Nat)} (h : st.frames = (fr, c) :: rest) :
    ∃ c', handle_template_param_value st =
        .ok () ⟨st.head, (write_token .TemplateParamEquals fr, c') :: rest⟩ ∧
      c' &&& contexts.TEMPLATE ≠ 0 := by
  simp only [handle_template_param_value, context_cons h, set_context_cons h]
  exact ⟨_, write_cons rfl .TemplateParamEquals, or_value_and_template _⟩

theorem verify_context_pre_stop_cons {text : List Char} {st : St} {fr : List Token} {c : Nat}
    {rest : List (List Token × Nat)} (h : st.frames = (fr, c) :: rest) :
    verify_context_pre_stop text st =
      if read text st.head 0 false = .END ∧ c &&& contexts.TEMPLATE ≠ 0 then .bad ⟨st.head, rest⟩
      else .ok () st := by
  unfold verify_context_pre_stop
  rw [context_cons h]
  by_cases h1 : read text st.head 0 false = .END
  · by_cases h2 : c &&& contexts.TEMPLATE ≠ 0
    · rw [if_pos h1, if_pos h2, if_pos ⟨h1, h2⟩, raise_bad_cons h]
    · rw [if_pos h1, if_neg h2, if_neg (by tauto)]
  · rw [if_neg h1, if_neg (by tauto)]

theorem verify_context_post_stop_cases {text : List Char} {st : St} {fr : List Token} {c : Nat}
    {rest : List (List Token × Nat)} (h : st.frames = (fr, c) :: rest) :
    verify_context_post_stop text st = .ok () st ∨
      verify_context_post_stop text st = .bad ⟨st.head, rest⟩ := by
  unfold verify_context_post_stop
  rw [context_cons h, stack_cons h]
  by_cases h1 : c &&& contexts.TEMPLATE_NAME ≠ 0 ∧ fr ≠ []
  · rw [if_pos h1]
    rcases hl : fr.getLast? with _ | t
    · left
      rfl
    · cases t with
      | Text tt =>
        dsimp only
        by_cases h2 : strip tt ≠ [] ∧ tt.getLast? = some '\n'
        · rw [if_pos h2]
          by_cases h3 : read text st.head 0 false ∉
              [ReadChar.chr '|', ReadChar.chr '=', ReadChar.chr '\n']
          · rw [if_pos h3, raise_bad_cons h]
            right
            rfl
          · rw [if_neg h3]
            left
            rfl
        · rw [if_neg h2]
          left
          rfl
      | TemplateOpen => left; rfl
      | TemplateClose => left; rfl
      | TemplateParamSeparator => left; rfl
      | TemplateParamEquals => left; rfl
      | HTMLEntityStart => left; rfl
      | HTMLEntityNumeric => left; rfl
      | HTMLEntityHex c => left; rfl
      | HTMLEntityEnd => left; rfl
  · rw [if_neg h1]
    left
    rfl

/-! ## Behaviour of the entity sub-parser -/

theorem entity_scan_spec (text : List Char) (defs : List (List Char)) :
    ∀ (fuel : Nat) (numeric hexadecimal : Bool) (valid acc : List Char) (st : St)
      (fr : List Token) (c : Nat) (rest : List (List Token × Nat)),
      st.frames = (fr, c) :: rest →
      (∀ st', entity_scan fuel text defs numeric hexadecimal valid acc st = .ok () st' →
        st.head ≤ st'.head ∧
        read text st'.head 0 false = .chr ';' ∧
        st'.frames = (write_token .HTMLEntityEnd
          (write_token (.Text (acc ++ slice text st.head st'.head)) fr), c) :: rest) ∧
      (∀ st', entity_scan fuel text defs numeric hexadecimal valid acc st = .bad st' →
        st'.frames = rest) ∧
      (∀ e, entity_scan fuel text defs numeric hexadecimal valid acc st = .err e →
        e ≠ .indexError) := by
  intro fuel
  induction fuel with
  | zero =>
    intro numeric hexadecimal valid acc st fr c rest h
    refine ⟨?_, ?_, ?_⟩ <;> (intro x hx; simp [entity_scan] at hx)
  | succ f ih =>
    intro numeric hexadecimal valid acc st fr c rest h
    by_cases hsemi : at_head text st.head [';'] = true
    · have hread : read text st.head 0 false = .chr ';' := at_head_one.mp hsemi
      cases numeric with
      | false =>
        by_cases hmem : acc ∈ defs
        · have hstep : entity_scan (f + 1) text defs false hexadecimal valid acc st =
              .ok () ⟨st.head, (write_token .HTMLEntityEnd
                (write_token (.Text acc) fr), c) :: rest⟩ := by
            simp only [entity_scan, if_pos hsemi, Bool.false_eq_true, if_false, if_pos hmem]
            rw [write_cons h]
            exact write_cons rfl .HTMLEntityEnd
          refine ⟨?_, ?_, ?_⟩
          · intro st' hx
            rw [hstep] at hx
            injection hx with _ hx2
            subst hx2
            refine ⟨le_refl _, hread, ?_⟩
            rw [slice_self, List.append_nil]
          · intro st' hx
            rw [hstep] at hx
            cases hx
          · intro e hx
            rw [hstep] at hx
            cases hx
        · have hstep : entity_scan (f + 1) text defs false hexadecimal valid acc st =
              .bad ⟨st.head, rest⟩ := by
            simp only [entity_scan, if_pos hsemi, Bool.false_eq_true, if_false, if_neg hmem]
            exact raise_bad_cons h
          refine ⟨?_, ?_, ?_⟩
          · intro st' hx
            rw [hstep] at hx
            cases hx
          · intro st' hx
            rw [hstep] at hx
            injection hx with hx1
            rw [← hx1]
          · intro e hx
            rw [hstep] at hx
            cases hx
      | true =>
        rcases hpy : py_int hexadecimal acc with _ | v
        · have hstep : entity_scan (f + 1) text defs true hexadecimal valid acc st =
              .err .valueError := by
            simp only [entity_scan, if_pos hsemi, if_true, hpy]
          refine ⟨?_, ?_, ?_⟩
          · intro st' hx
            rw [hstep] at hx
            cases hx
          · intro st' hx
            rw [hstep] at hx
            cases hx
          · intro e hx
            rw [hstep] at hx
            injection hx with hx1
            rw [← hx1]
            intro hco
            cases hco
        · by_cases hbound : v < 1 ∨ 0x10FFFF < v
          · have hstep : entity_scan (f + 1) text defs true hexadecimal valid acc st =
                .bad ⟨st.head, rest⟩ := by
              simp only [entity_scan, if_pos hsemi, if_true, hpy, if_pos hbound]
              exact raise_bad_cons h
            refine ⟨?_, ?_, ?_⟩
            · intro st' hx
              rw [hstep] at hx
              cases hx
            · intro st' hx
              rw [hstep] at hx
              injection hx with hx1
              rw [← hx1]
            · intro e hx
              rw [hstep] at hx
              cases hx
          · have hstep : entity_scan (f + 1) text defs true hexadecimal valid acc st =
                .ok () ⟨st.head, (write_token .HTMLEntityEnd
                  (write_token (.Text acc) fr), c) :: rest⟩ := by
              simp only [entity_scan, if_pos hsemi, if_true, hpy, if_neg hbound]
              rw [write_cons h]
              exact write_cons rfl .HTMLEntityEnd
            refine ⟨?_, ?_, ?_⟩
            · intro st' hx
              rw [hstep] at hx
              injection hx with _ hx2
              subst hx2
              refine ⟨le_refl _, hread, ?_⟩
              rw [slice_self, List.append_nil]
            · intro st' hx
              rw [hstep] at hx
              cases hx
            · intro e hx
              rw [hstep] at hx
              cases hx
    · rcases hr : read text st.head 0 false with _ | ch | _
      · have hstep : entity_scan (f + 1) text defs numeric hexadecimal valid acc st =
            .bad ⟨st.head, rest⟩ := by
          simp only [entity_scan, if_neg hsemi, hr]
          exact raise_bad_cons h
        refine ⟨?_, ?_, ?_⟩
        · intro st' hx
          rw [hstep] at hx
          cases hx
        · intro st' hx
          rw [hstep] at hx
          injection hx with hx1
          rw [← hx1]
        · intro e hx
          rw [hstep] at hx
          cases hx
      · by_cases hv : ch ∈ valid
        · have hstep : entity_scan (f + 1) text defs numeric hexadecimal valid acc st =
              entity_scan f text defs numeric hexadecimal valid (acc ++ [ch])
                ⟨st.head + 1, st.frames⟩ := by
            simp only [entity_scan, if_neg hsemi, hr, if_pos hv]
          have hres := ih numeric hexadecimal valid (acc ++ [ch]) ⟨st.head + 1, st.frames⟩
            fr c rest h
          have hch : st.head < text.length ∧ text.getD st.head ' ' = ch := read_zero_chr_iff.mp hr
          refine ⟨?_, ?_, ?_⟩
          · intro st' hx
            rw [hstep] at hx
            obtain ⟨h1, h2, h3⟩ := hres.1 st' hx
            dsimp only at h1 h3
            refine ⟨by omega, h2, ?_⟩
            rw [h3]
            have hs : slice text st.head st'.head = ch :: slice text (st.head + 1) st'.head := by
              have := @slice_cons text st.head st'.head hch.1 (by omega)
              rw [hch.2] at this
              exact this
            rw [hs]
            simp
          · intro st' hx
            rw [hstep] at hx
            exact hres.2.1 st' hx
          · intro e hx
            rw [hstep] at hx
            exact hres.2.2 e hx
        · have hstep : entity_scan (f + 1) text defs numeric hexadecimal valid acc st =
              .bad ⟨st.head, rest⟩ := by
            simp only [entity_scan, if_neg hsemi, hr, if_neg hv]
            exact raise_bad_cons h
          refine ⟨?_, ?_, ?_⟩
          · intro st' hx
            rw [hstep] at hx
            cases hx
          · intro st' hx
            rw [hstep] at hx
            injection hx with hx1
            rw [← hx1]
          · intro e hx
            rw [hstep] at hx
            cases hx
      · have hstep : entity_scan (f + 1) text defs numeric hexadecimal valid acc st =
            .bad ⟨st.head, rest⟩ := by
          simp only [entity_scan, if_neg hsemi, hr]
          exact raise_bad_cons h
        refine ⟨?_, ?_, ?_⟩
        · intro st' hx
          rw [hstep] at hx
          cases hx
        · intro st' hx
          rw [hstep] at hx
          injection hx with hx1
          rw [← hx1]
        · intro e hx
          rw [hstep] at hx
          cases hx

theorem parse_entity_body_eq (text : List Char) (defs : List (List Char)) (fuel : Nat)
    (st : St) :
    parse_entity_body fuel text defs st =
      if at_head text st.head ['#'] = true then
        match read text st.head 1 false with
        | .chr c =>
          if c.toLower = 'x' then
            entity_scan fuel text defs true true hexdigits []
              ⟨st.head + 2, ([Token.HTMLEntityStart, Token.HTMLEntityNumeric,
                Token.HTMLEntityHex c], 0) :: st.frames⟩
          else
            entity_scan fuel text defs true false digits []
              ⟨st.head + 1, ([Token.HTMLEntityStart, Token.HTMLEntityNumeric], 0) :: st.frames⟩
        | _ => .err .attributeError
      else
        entity_scan fuel text defs false false (digits ++ ascii_letters) []
          ⟨st.head, ([Token.HTMLEntityStart], 0) :: st.frames⟩ := rfl

theorem parse_entity_body_spec (text : List Char) (defs : List (List Char)) (fuel : Nat) (st : St) :
    (∀ st', parse_entity_body fuel text defs st = .ok () st' → ∃ efr,
      st'.frames = (efr, 0) :: st.frames ∧
      st.head ≤ st'.head ∧
      read text st'.head 0 false = .chr ';' ∧
      contents efr = '&' :: slice text st.head (st'.head + 1) ∧
      no_adjacent_text efr ∧
      (∀ t ∈ efr, tok_delta t = 0) ∧
      efr.head? = some .HTMLEntityStart) ∧
    (∀ st', parse_entity_body fuel text defs st = .bad st' → st'.frames = st.frames) ∧
    (∀ e, parse_entity_body fuel text defs st = .err e → e ≠ .indexError) := by
  by_cases hH : at_head text st.head ['#'] = true
  · have hsharp : st.head < text.length ∧ text.getD st.head ' ' = '#' :=
      read_zero_chr_iff.mp (at_head_one.mp hH)
    rcases hr1 : read text st.head 1 false with _ | c2 | _
    · have hstep : parse_entity_body fuel text defs st = .err .attributeError := by
        simp only [parse_entity_body_eq, hH, if_true, hr1]
      refine ⟨?_, ?_, ?_⟩
      · intro st' hx
        rw [hstep] at hx
        cases hx
      · intro st' hx
        rw [hstep] at hx
        cases hx
      · intro e hx
        rw [hstep] at hx
        injection hx with hx1
        rw [← hx1]
        intro hco
        cases hco
    · have hc2 : st.head + 1 < text.length ∧ text.getD (st.head + 1) ' ' = c2 :=
        read_chr_iff.mp hr1
      by_cases hx2 : c2.toLower = 'x'
      · have hstep : parse_entity_body fuel text defs st =
            entity_scan fuel text defs true true hexdigits []
              ⟨st.head + 2, ([Token.HTMLEntityStart, Token.HTMLEntityNumeric,
                Token.HTMLEntityHex c2], 0) :: st.frames⟩ := by
          simp only [parse_entity_body_eq, hH, if_true, hr1, hx2, if_true]
        have hscan := entity_scan_spec text defs fuel true true hexdigits []
          ⟨st.head + 2, ([Token.HTMLEntityStart, Token.HTMLEntityNumeric,
            Token.HTMLEntityHex c2], 0) :: st.frames⟩
          [Token.HTMLEntityStart, Token.HTMLEntityNumeric, Token.HTMLEntityHex c2] 0 st.frames rfl
        refine ⟨?_, ?_, ?_⟩
        · intro st' hx
          rw [hstep] at hx
          obtain ⟨hh1, hh2, hh3⟩ := hscan.1 st' hx
          dsimp only at hh1 hh3
          have hsemi : st'.head < text.length ∧ text.getD st'.head ' ' = ';' :=
            read_zero_chr_iff.mp hh2
          refine ⟨[Token.HTMLEntityStart, Token.HTMLEntityNumeric, Token.HTMLEntityHex c2,
            Token.Text (slice text (st.head + 2) st'.head), Token.HTMLEntityEnd],
            ?_, by omega, hh2, ?_, ?_, ?_, ?_⟩
          · rw [hh3]
            rfl
          · have hs1 : slice text st.head (st'.head + 1) =
                '#' :: c2 :: ((slice text (st.head + 2) st'.head) ++ [';']) := by
              rw [slice_cons hsharp.1 (by omega), hsharp.2]
              rw [slice_cons (by omega) (by omega)]
              rw [show text.getD (st.head).succ ' ' = c2 from hc2.2]
              rw [show (st.head).succ.succ = st.head + 2 from rfl]
              rw [← @slice_append text (st.head + 2) st'.head (st'.head + 1) (by omega) (by omega)]
              rw [slice_one hsemi.1, hsemi.2]
            rw [hs1]
            simp [contents, token_chars]
          · simp [no_adjacent_text, List.chain'_cons, is_text]
          · intro t ht
            simp at ht
            rcases ht with rfl | rfl | rfl | rfl | rfl <;> rfl
          · rfl
        · intro st' hx
          rw [hstep] at hx
          exact hscan.2.1 st' hx
        · intro e hx
          rw [hstep] at hx
          exact hscan.2.2 e hx
      · have hstep : parse_entity_body fuel text defs st =
            entity_scan fuel text defs true false digits []
              ⟨st.head + 1, ([Token.HTMLEntityStart, Token.HTMLEntityNumeric], 0) :: st.frames⟩ := by
          simp only [parse_entity_body_eq, hH, if_true, hr1, hx2, if_false]
        have hscan := entity_scan_spec text defs fuel true false digits []
          ⟨st.head + 1, ([Token.HTMLEntityStart, Token.HTMLEntityNumeric], 0) :: st.frames⟩
          [Token.HTMLEntityStart, Token.HTMLEntityNumeric] 0 st.frames rfl
        refine ⟨?_, ?_, ?_⟩
        · intro st' hx
          rw [hstep] at hx
          obtain ⟨hh1, hh2, hh3⟩ := hscan.1 st' hx
          dsimp only at hh1 hh3
          have hsemi : st'.head < text.length ∧ text.getD st'.head ' ' = ';' :=
            read_zero_chr_iff.mp hh2
          refine ⟨[Token.HTMLEntityStart, Token.HTMLEntityNumeric,
            Token.Text (slice text (st.head + 1) st'.head), Token.HTMLEntityEnd],
            ?_, by omega, hh2, ?_, ?_, ?_, ?_⟩
          · rw [hh3]
            rfl
          · have hs1 : slice text st.head (st'.head + 1) =
                '#' :: ((slice text (st.head + 1) st'.head) ++ [';']) := by
              rw [slice_cons hsharp.1 (by omega), hsharp.2]
              rw [show (st.head).succ = st.head + 1 from rfl]
              rw [← @slice_append text (st.head + 1) st'.head (st'.head + 1) (by omega) (by omega)]
              rw [slice_one hsemi.1, hsemi.2]
            rw [hs1]
            simp [contents, token_chars]
          · simp [no_adjacent_text, List.chain'_cons, is_text]
          · intro t ht
            simp at ht
            rcases ht with rfl | rfl | rfl | rfl <;> rfl
          · rfl
        · intro st' hx
          rw [hstep] at hx
          exact hscan.2.1 st' hx
        · intro e hx
          rw [hstep] at hx
          exact hscan.2.2 e hx
    · have hstep : parse_entity_body fuel text defs st = .err .attributeError := by
        simp only [parse_entity_body_eq, hH, if_true, hr1]
      refine ⟨?_, ?_, ?_⟩
      · intro st' hx
        rw [hstep] at hx
        cases hx
      · intro st' hx
        rw [hstep] at hx
        cases hx
      · intro e hx
        rw [hstep] at hx
        injection hx with hx1
        rw [← hx1]
        intro hco
        cases hco
  · have hstep : parse_entity_body fuel text defs st =
        entity_scan fuel text defs false false (digits ++ ascii_letters) []
          ⟨st.head, ([Token.HTMLEntityStart], 0) :: st.frames⟩ := by
      simp only [parse_entity_body_eq, hH, Bool.false_eq_true, if_false]
    have hscan := entity_scan_spec text defs fuel false false (digits ++ ascii_letters)
      [] ⟨st.head, ([Token.HTMLEntityStart], 0) :: st.frames⟩
      [Token.HTMLEntityStart] 0 st.frames rfl
    refine ⟨?_, ?_, ?_⟩
    · intro st' hx
      rw [hstep] at hx
      obtain ⟨hh1, hh2, hh3⟩ := hscan.1 st' hx
      dsimp only at hh1 hh3
      have hsemi : st'.head < text.length ∧ text.getD st'.head ' ' = ';' :=
        read_zero_chr_iff.mp hh2
      refine ⟨[Token.HTMLEntityStart, Token.Text (slice text st.head st'.head),
        Token.HTMLEntityEnd], ?_, hh1, hh2, ?_, ?_, ?_, ?_⟩
      · rw [hh3]
        rfl
      · have hs1 : slice text st.head (st'.head + 1) =
            (slice text st.head st'.head) ++ [';'] := by
          rw [← @slice_append text st.head st'.head (st'.head + 1) (by omega) (by omega)]
          rw [slice_one hsemi.1, hsemi.2]
        rw [hs1]
        simp [contents, token_chars]
      · simp [no_adjacent_text, List.chain'_cons, is_text]
      · intro t ht
        simp at ht
        rcases ht with rfl | rfl | rfl <;> rfl
      · rfl
    · intro st' hx
      rw [hstep] at hx
      exact hscan.2.1 st' hx
    · intro e hx
      rw [hstep] at hx
      exact hscan.2.2 e hx

theorem parse_entity_eq (text : List Char) (defs : List (List Char)) (f : Nat) (st : St) :
    parse_entity (f + 1) text defs st =
      match parse_entity_body f text defs ⟨st.head + 1, st.frames⟩ with
      | .bad st1 => write (.Text (read_chars (read text st.head 0 false))) ⟨st.head, st1.frames⟩
      | .ok _ st1 =>
        match pop st1 with
        | .ok tokenlist st2 => write_all tokenlist st2
        | .bad s => .bad s
        | .err e => .err e
        | .nofuel => .nofuel
      | .err e => .err e
      | .nofuel => .nofuel := rfl

theorem parse_entity_spec (text : List Char) (defs : List (List Char)) (fuel : Nat) (st : St)
    (fr : List Token) (c : Nat) (rest : List (List Token × Nat))
    (h : st.frames = (fr, c) :: rest)
    (hr : read text st.head 0 false = .chr '&') :
    (∀ st', parse_entity fuel text defs st = .ok () st' → ∃ fr',
      st'.frames = (fr', c) :: rest ∧
      st.head ≤ st'.head ∧ st'.head < text.length ∧
      contents fr' = contents fr ++ slice text st.head (st'.head + 1) ∧
      (no_adjacent_text fr → no_adjacent_text fr') ∧
      (balanced fr → balanced fr')) ∧
    (∀ st', parse_entity fuel text defs st = .bad st' → False) ∧
    (∀ e, parse_entity fuel text defs st = .err e → e ≠ .indexError) := by
  have hamp : st.head < text.length ∧ text.getD st.head ' ' = '&' := read_zero_chr_iff.mp hr
  cases fuel with
  | zero =>
    refine ⟨?_, ?_, ?_⟩ <;> (intro x hx; simp [parse_entity] at hx)
  | succ f =>
    have hbs := parse_entity_body_spec text defs f ⟨st.head + 1, st.frames⟩
    rcases hbody : parse_entity_body f text defs ⟨st.head + 1, st.frames⟩ with ⟨_, st1⟩ | st1 | e | _
    · obtain ⟨efr, hf, hhead, hsemi, hcont, hnoadj, hdeltas, hstart⟩ := hbs.1 st1 hbody
      dsimp only at hf hhead hcont
      have hsemi' : st1.head < text.length ∧ text.getD st1.head ' ' = ';' :=
        read_zero_chr_iff.mp hsemi
      have hstep : parse_entity (f + 1) text defs st =
          .ok () ⟨st1.head, (fr ++ efr, c) :: rest⟩ := by
        rw [parse_entity_eq, hbody]
        dsimp only
        rw [pop_cons hf]
        dsimp only
        exact write_all_cons (show (⟨st1.head, st.frames⟩ : St).frames = (fr, c) :: rest from h) efr
      refine ⟨?_, ?_, ?_⟩
      · intro st' hx
        rw [hstep] at hx
        injection hx with _ hx2
        subst hx2
        dsimp only
        refine ⟨fr ++ efr, rfl, by omega, hsemi'.1, ?_, ?_, ?_⟩
        · rw [contents_append, hcont]
          have : slice text st.head (st1.head + 1) =
              '&' :: slice text (st.head + 1) (st1.head + 1) := by
            rw [slice_cons hamp.1 (by omega), hamp.2]
          rw [this]
        · intro hfr
          refine no_adjacent_text_append hfr hnoadj ?_
          intro x _ y hy
          rw [hstart] at hy
          simp only [Option.mem_def, Option.some.injEq] at hy
          subst hy
          exact Or.inr (by simp [is_text])
        · intro hfr
          exact balanced_append hfr (balanced_zeros hdeltas)
      · intro st' hx
        rw [hstep] at hx
        cases hx
      · intro e hx
        rw [hstep] at hx
        cases hx
    · have hf := hbs.2.1 st1 hbody
      dsimp only at hf
      have hstep : parse_entity (f + 1) text defs st =
          .ok () ⟨st.head, (write_token (.Text ['&']) fr, c) :: rest⟩ := by
        rw [parse_entity_eq, hbody]
        dsimp only
        rw [hr, read_chars_chr]
        exact write_cons (show (⟨st.head, st1.frames⟩ : St).frames = (fr, c) :: rest from
          hf.trans h) (.Text ['&'])
      refine ⟨?_, ?_, ?_⟩
      · intro st' hx
        rw [hstep] at hx
        injection hx with _ hx2
        subst hx2
        refine ⟨write_token (.Text ['&']) fr, rfl, le_refl _, hamp.1, ?_, ?_, ?_⟩
        · rw [contents_write_token, slice_one hamp.1, hamp.2]
          rfl
        · intro hfr
          exact no_adjacent_text_write_token _ hfr
        · intro hfr
          exact balanced_write_token (by rfl) hfr
      · intro st' hx
        rw [hstep] at hx
        cases hx
      · intro e hx
        rw [hstep] at hx
        cases hx
    · have hstep : parse_entity (f + 1) text defs st = .err e := by
        rw [parse_entity_eq, hbody]
      refine ⟨?_, ?_, ?_⟩
      · intro st' hx
        rw [hstep] at hx
        cases hx
      · intro st' hx
        rw [hstep] at hx
        cases hx
      · intro e' hx
        rw [hstep] at hx
        injection hx with hx1
        rw [← hx1]
        exact hbs.2.2 e hbody
    · have hstep : parse_entity (f + 1) text defs st = .nofuel := by
        rw [parse_entity_eq, hbody]
      refine ⟨?_, ?_, ?_⟩
      · intro st' hx
        rw [hstep] at hx
        cases hx
      · intro st' hx
        rw [hstep] at hx
        cases hx
      · intro e hx
        rw [hstep] at hx
        cases hx

/-! ## Behaviour of the dispatch loop and the template sub-parser -/

/-- The two stop values the source actually uses: the `END` sentinel and a
non-empty literal (`"}}"`). -/
def stop_ok : Stop → Prop
  | .END => True
  | .lit s => s ≠ []

theorem parse_until_eq (text : List Char) (defs : List (List Char)) (f : Nat) (stop : Stop)
    (ctx : Nat) (st : St) :
    parse_until (f + 1) text defs stop ctx st =
      parse_until_loop f text defs stop ⟨st.head, ([], ctx) :: st.frames⟩ := rfl

theorem parse_template_eq (text : List Char) (defs : List (List Char)) (f : Nat) (st : St) :
    parse_template (f + 1) text defs st =
      match parse_until f text defs (.lit ['}', '}']) contexts.TEMPLATE_NAME
          ⟨st.head + 2, st.frames⟩ with
      | .bad st1 => write (.Text (read_chars (read text st.head 0 false))) ⟨st.head, st1.frames⟩
      | .ok template st1 =>
        match write .TemplateOpen st1 with
        | .ok _ st2 =>
          match write_all template st2 with
          | .ok _ st3 => write .TemplateClose st3
          | r => r
        | r => r
      | .err e => .err e
      | .nofuel => .nofuel := rfl

theorem parse_until_loop_eq (text : List Char) (defs : List (List Char)) (f : Nat) (stop : Stop)
    (st : St) :
    parse_until_loop (f + 1) text defs stop st =
      match verify_context_pre_stop text st with
      | .ok _ st1 =>
        match catch_stop text stop st1 with
        | (true, st2) => pop st2
        | (false, st2) =>
          match verify_context_post_stop text st2 with
          | .ok _ st3 =>
            match
              (if at_head text st3.head ['{', '{'] then
                parse_template f text defs st3
              else if at_head text st3.head ['|'] ∧ context st3 &&& contexts.TEMPLATE ≠ 0 then
                handle_template_param st3
              else if at_head text st3.head ['='] ∧
                  context st3 &&& contexts.TEMPLATE_PARAM_KEY ≠ 0 then
                handle_template_param_value st3
              else if at_head text st3.head ['&'] then
                parse_entity f text defs st3
              else
                write (.Text (read_chars (read text st3.head 0 false))) st3) with
            | .ok _ st4 => parse_until_loop f text defs stop ⟨st4.head + 1, st4.frames⟩
            | .bad s => .bad s
            | .err e => .err e
            | .nofuel => .nofuel
          | .bad s => .bad s
          | .err e => .err e
          | .nofuel => .nofuel
      | .bad s => .bad s
      | .err e => .err e
      | .nofuel => .nofuel := rfl

theorem engine_spec (text : List Char) (defs : List (List Char)) :
    ∀ fuel : Nat,
      (∀ (stop : Stop) (st : St) (fr : List Token) (c : Nat) (rest : List (List Token × Nat)),
        stop_ok stop → st.frames = (fr, c) :: rest →
        (∀ toks st', parse_until_loop fuel text defs stop st = .ok toks st' →
          st'.frames = rest ∧ st.head ≤ st'.head ∧
          (no_adjacent_text fr → no_adjacent_text toks) ∧
          (balanced fr → balanced toks) ∧
          (stop = .END → contents toks = contents fr ++ text.drop st.head) ∧
          (∀ s, stop = .lit s → c &&& contexts.TEMPLATE ≠ 0 →
            s.length ≤ st'.head + 1 ∧ st.head + s.length ≤ st'.head + 1 ∧
            contents toks = contents fr ++ slice text st.head (st'.head + 1 - s.length) ∧
            (∀ i, i < s.length →
              read text (st'.head + 1 - s.length + i) 0 false = .chr (s.getD i ' ')))) ∧
        (∀ st', parse_until_loop fuel text defs stop st = .bad st' → st'.frames = rest) ∧
        (∀ e, parse_until_loop fuel text defs stop st = .err e → e ≠ .indexError)) ∧
      (∀ (stop : Stop) (ctx : Nat) (st : St),
        stop_ok stop →
        (∀ toks st', parse_until fuel text defs stop ctx st = .ok toks st' →
          st'.frames = st.frames ∧ st.head ≤ st'.head ∧
          no_adjacent_text toks ∧ balanced toks ∧
          (stop = .END → contents toks = text.drop st.head) ∧
          (∀ s, stop = .lit s → ctx &&& contexts.TEMPLATE ≠ 0 →
            s.length ≤ st'.head + 1 ∧ st.head + s.length ≤ st'.head + 1 ∧
            contents toks = slice text st.head (st'.head + 1 - s.length) ∧
            (∀ i, i < s.length →
              read text (st'.head + 1 - s.length + i) 0 false = .chr (s.getD i ' ')))) ∧
        (∀ st', parse_until fuel text defs stop ctx st = .bad st' → st'.frames = st.frames) ∧
        (∀ e, parse_until fuel text defs stop ctx st = .err e → e ≠ .indexError)) ∧
      (∀ (st : St) (fr : List Token) (c : Nat) (rest : List (List Token × Nat)),
        st.frames = (fr, c) :: rest →
        read text st.head 0 false = .chr '{' →
        read text st.head 1 false = .chr '{' →
        (∀ st', parse_template fuel text defs st = .ok () st' → ∃ fr',
          st'.frames = (fr', c) :: rest ∧
          st.head ≤ st'.head ∧ st'.head < text.length ∧
          contents fr' = contents fr ++ slice text st.head (st'.head + 1) ∧
          (no_adjacent_text fr → no_adjacent_text fr') ∧
          (balanced fr → balanced fr')) ∧
        (∀ st', parse_template fuel text defs st = .bad st' → False) ∧
        (∀ e, parse_template fuel text defs st = .err e → e ≠ .indexError)) := by
  intro fuel
  induction fuel with
  | zero =>
    refine ⟨?_, ?_, ?_⟩
    · intro stop st fr c rest _ _
      refine ⟨?_, ?_, ?_⟩
      · intro toks st' hx
        simp [parse_until_loop] at hx
      · intro st' hx
        simp [parse_until_loop] at hx
      · intro e hx
        simp [parse_until_loop] at hx
    · intro stop ctx st _
      refine ⟨?_, ?_, ?_⟩
      · intro toks st' hx
        simp [parse_until] at hx
      · intro st' hx
        simp [parse_until] at hx
      · intro e hx
        simp [parse_until] at hx
    · intro st fr c rest _ _ _
      refine ⟨?_, ?_, ?_⟩
      · intro st' hx
        simp [parse_template] at hx
      · intro st' hx
        simp [parse_template] at hx
      · intro e hx
        simp [parse_template] at hx
  | succ f ih =>
    obtain ⟨ihL, ihU, ihT⟩ := ih
    refine ⟨?_, ?_, ?_⟩
    · -- the dispatch loop at fuel f + 1
      intro stop st fr c rest hso h
      by_cases hpre : read text st.head 0 false = .END ∧ c &&& contexts.TEMPLATE ≠ 0
      · have hstep : parse_until_loop (f + 1) text defs stop st = .bad ⟨st.head, rest⟩ := by
          rw [parse_until_loop_eq, verify_context_pre_stop_cons h, if_pos hpre]
        refine ⟨?_, ?_, ?_⟩
        · intro toks st' hx
          rw [hstep] at hx
          cases hx
        · intro st' hx
          rw [hstep] at hx
          injection hx with h1
          rw [← h1]
        · intro e hx
          rw [hstep] at hx
          cases hx
      · have hpre' : verify_context_pre_stop text st = .ok () st := by
          rw [verify_context_pre_stop_cons h, if_neg hpre]
        rcases hch : read text st.head 0 false with _ | ch | _
        · exfalso
          have hz := read_zero text st.head
          rw [hch] at hz
          by_cases hl : st.head < text.length <;> simp [hl] at hz
        · -- a real character under the cursor
          have hlt : st.head < text.length ∧ text.getD st.head ' ' = ch :=
            read_zero_chr_iff.mp hch
          have hdispatch : catch_stop text stop st = (false, st) →
              (∀ toks st', parse_until_loop (f + 1) text defs stop st = .ok toks st' →
                st'.frames = rest ∧ st.head ≤ st'.head ∧
                (no_adjacent_text fr → no_adjacent_text toks) ∧
                (balanced fr → balanced toks) ∧
                (stop = .END → contents toks = contents fr ++ text.drop st.head) ∧
                (∀ s, stop = .lit s → c &&& contexts.TEMPLATE ≠ 0 →
                  s.length ≤ st'.head + 1 ∧ st.head + s.length ≤ st'.head + 1 ∧
                  contents toks = contents fr ++ slice text st.head (st'.head + 1 - s.length) ∧
                  (∀ i, i < s.length →
                    read text (st'.head + 1 - s.length + i) 0 false = .chr (s.getD i ' ')))) ∧
              (∀ st', parse_until_loop (f + 1) text defs stop st = .bad st' →
                st'.frames = rest) ∧
              (∀ e, parse_until_loop (f + 1) text defs stop st = .err e →
                e ≠ .indexError) := by
            intro hcs
            rcases @verify_context_post_stop_cases text _ _ _ _ h with hpost | hpost
            · -- all the checks pass: construct dispatch
              have hstep0 : parse_until_loop (f + 1) text defs stop st =
                  match
                    (if at_head text st.head ['{', '{'] then
                      parse_template f text defs st
                    else if at_head text st.head ['|'] ∧ c &&& contexts.TEMPLATE ≠ 0 then
                      handle_template_param st
                    else if at_head text st.head ['='] ∧
                        c &&& contexts.TEMPLATE_PARAM_KEY ≠ 0 then
                      handle_template_param_value st
                    else if at_head text st.head ['&'] then
                      parse_entity f text defs st
                    else
                      write (.Text (read_chars (read text st.head 0 false))) st) with
                  | .ok _ st4 => parse_until_loop f text defs stop ⟨st4.head + 1, st4.frames⟩
                  | .bad s => .bad s
                  | .err e => .err e
                  | .nofuel => .nofuel := by
                rw [parse_until_loop_eq, hpre']
                dsimp only
                rw [hcs]
                dsimp only
                rw [hpost]
                dsimp only
                rw [context_cons h]
              have COMP : ∀ (st4 : St) (fr' : List Token) (c' : Nat),
                  parse_until_loop (f + 1) text defs stop st =
                    parse_until_loop f text defs stop ⟨st4.head + 1, st4.frames⟩ →
                  st4.frames = (fr', c') :: rest →
                  st.head ≤ st4.head → st4.head < text.length →
                  contents fr' = contents fr ++ slice text st.head (st4.head + 1) →
                  (no_adjacent_text fr → no_adjacent_text fr') →
                  (balanced fr → balanced fr') →
                  (c &&& contexts.TEMPLATE ≠ 0 → c' &&& contexts.TEMPLATE ≠ 0) →
                  (∀ toks st', parse_until_loop (f + 1) text defs stop st = .ok toks st' →
                    st'.frames = rest ∧ st.head ≤ st'.head ∧
                    (no_adjacent_text fr → no_adjacent_text toks) ∧
                    (balanced fr → balanced toks) ∧
                    (stop = .END → contents toks = contents fr ++ text.drop st.head) ∧
                    (∀ s, stop = .lit s → c &&& contexts.TEMPLATE ≠ 0 →
                      s.length ≤ st'.head + 1 ∧ st.head + s.length ≤ st'.head + 1 ∧
                      contents toks =
                        contents fr ++ slice text st.head (st'.head + 1 - s.length) ∧
                      (∀ i, i < s.length →
                        read text (st'.head + 1 - s.length + i) 0 false =
                          .chr (s.getD i ' ')))) ∧
                  (∀ st', parse_until_loop (f + 1) text defs stop st = .bad st' →
                    st'.frames = rest) ∧
                  (∀ e, parse_until_loop (f + 1) text defs stop st = .err e →
                    e ≠ .indexError) := by
                intro st4 fr' c' hstep hfr4 hmono hlt4 hcont hna hbal hcc
                have hloop := ihL stop ⟨st4.head + 1, st4.frames⟩ fr' c' rest hso hfr4
                refine ⟨?_, ?_, ?_⟩
                · intro toks st' hx
                  rw [hstep] at hx
                  obtain ⟨g1, g2, g3, g4, g5, g6⟩ := hloop.1 toks st' hx
                  dsimp only at g2
                  refine ⟨g1, by omega, fun hf => g3 (hna hf), fun hf => g4 (hbal hf), ?_, ?_⟩
                  · intro hEND
                    have g5' := g5 hEND
                    dsimp only at g5'
                    rw [g5', hcont, List.append_assoc]
                    congr 1
                    exact slice_drop (by omega)
                  · intro s hs hc7
                    obtain ⟨b1, b2, b3, b4⟩ := g6 s hs (hcc hc7)
                    dsimp only at b1 b2 b3 b4
                    refine ⟨b1, by omega, ?_, b4⟩
                    rw [b3, hcont, List.append_assoc]
                    congr 1
                    exact slice_append (by omega) (by omega)
                · intro st' hx
                  rw [hstep] at hx
                  exact hloop.2.1 st' hx
                · intro e hx
                  rw [hstep] at hx
                  exact hloop.2.2 e hx
              by_cases hc1 : at_head text st.head ['{', '{'] = true
              · rw [if_pos hc1] at hstep0
                obtain ⟨r0, r1⟩ := at_head_two.mp hc1
                have htspec := ihT st fr c rest h r0 r1
                rcases htr : parse_template f text defs st with ⟨u, st4⟩ | st4 | e | _
                · rw [htr] at hstep0
                  dsimp only at hstep0
                  obtain ⟨fr', hfr', hm, hl4, hco, hna, hbal⟩ := htspec.1 st4 htr
                  exact COMP st4 fr' c hstep0 hfr' hm hl4 hco hna hbal (fun x => x)
                · exact absurd htr (fun hx => htspec.2.1 st4 hx)
                · rw [htr] at hstep0
                  dsimp only at hstep0
                  refine ⟨?_, ?_, ?_⟩
                  · intro toks st' hx
                    rw [hstep0] at hx
                    cases hx
                  · intro st' hx
                    rw [hstep0] at hx
                    cases hx
                  · intro e' hx
                    rw [hstep0] at hx
                    injection hx with h1
                    rw [← h1]
                    exact htspec.2.2 e htr
                · rw [htr] at hstep0
                  dsimp only at hstep0
                  refine ⟨?_, ?_, ?_⟩
                  · intro toks st' hx
                    rw [hstep0] at hx
                    cases hx
                  · intro st' hx
                    rw [hstep0] at hx
                    cases hx
                  · intro e hx
                    rw [hstep0] at hx
                    cases hx
              · rw [if_neg hc1] at hstep0
                by_cases hc2 : at_head text st.head ['|'] = true ∧ c &&& contexts.TEMPLATE ≠ 0
                · rw [if_pos hc2] at hstep0
                  have hpipe : ch = '|' := by
                    have hx := at_head_one.mp hc2.1
                    rw [hch] at hx
                    injection hx with hx1
                  obtain ⟨c', hhp, hc'⟩ := handle_template_param_cons h
                  rw [hhp] at hstep0
                  dsimp only at hstep0
                  refine COMP ⟨st.head, (write_token .TemplateParamSeparator fr, c') :: rest⟩
                    (write_token .TemplateParamSeparator fr) c' hstep0 rfl (le_refl _) hlt.1
                    ?_ (fun hf => no_adjacent_text_write_token _ hf)
                    (fun hf => @balanced_write_token Token.TemplateParamSeparator rfl _ hf)
                    (fun _ => hc')
                  rw [contents_write_token, slice_one hlt.1, hlt.2, hpipe]
                  rfl
                · rw [if_neg hc2] at hstep0
                  by_cases hc3 : at_head text st.head ['='] = true ∧
                      c &&& contexts.TEMPLATE_PARAM_KEY ≠ 0
                  · rw [if_pos hc3] at hstep0
                    have heqc : ch = '=' := by
                      have hx := at_head_one.mp hc3.1
                      rw [hch] at hx
                      injection hx with hx1
                    obtain ⟨c', hhp, hc'⟩ := handle_template_param_value_cons h
                    rw [hhp] at hstep0
                    dsimp only at hstep0
                    refine COMP ⟨st.head, (write_token .TemplateParamEquals fr, c') :: rest⟩
                      (write_token .TemplateParamEquals fr) c' hstep0 rfl (le_refl _) hlt.1
                      ?_ (fun hf => no_adjacent_text_write_token _ hf)
                      (fun hf => @balanced_write_token Token.TemplateParamEquals rfl _ hf)
                      (fun _ => hc')
                    rw [contents_write_token, slice_one hlt.1, hlt.2, heqc]
                    rfl
                  · rw [if_neg hc3] at hstep0
                    by_cases hc4 : at_head text st.head ['&'] = true
                    · rw [if_pos hc4] at hstep0
                      have hampc : ch = '&' := by
                        have hx := at_head_one.mp hc4
                        rw [hch] at hx
                        injection hx with hx1
                      have hespec := parse_entity_spec text defs f st fr c rest h
                        (by rw [hch, hampc])
                      rcases her : parse_entity f text defs st with ⟨u, st4⟩ | st4 | e | _
                      · rw [her] at hstep0
                        dsimp only at hstep0
                        obtain ⟨fr', hfr', hm, hl4, hco, hna, hbal⟩ := hespec.1 st4 her
                        exact COMP st4 fr' c hstep0 hfr' hm hl4 hco hna hbal (fun x => x)
                      · exact absurd her (fun hx => hespec.2.1 st4 hx)
                      · rw [her] at hstep0
                        dsimp only at hstep0
                        refine ⟨?_, ?_, ?_⟩
                        · intro toks st' hx
                          rw [hstep0] at hx
                          cases hx
                        · intro st' hx
                          rw [hstep0] at hx
                          cases hx
                        · intro e' hx
                          rw [hstep0] at hx
                          injection hx with h1
                          rw [← h1]
                          exact hespec.2.2 e her
                      · rw [her] at hstep0
                        dsimp only at hstep0
                        refine ⟨?_, ?_, ?_⟩
                        · intro toks st' hx
                          rw [hstep0] at hx
                          cases hx
                        · intro st' hx
                          rw [hstep0] at hx
                          cases hx
                        · intro e hx
                          rw [hstep0] at hx
                          cases hx
                    · rw [if_neg hc4] at hstep0
                      rw [hch, read_chars_chr, write_cons h (.Text [ch])] at hstep0
                      dsimp only at hstep0
                      refine COMP ⟨st.head, (write_token (.Text [ch]) fr, c) :: rest⟩
                        (write_token (.Text [ch]) fr) c hstep0 rfl (le_refl _) hlt.1
                        ?_ (fun hf => no_adjacent_text_write_token _ hf)
                        (fun hf => @balanced_write_token (Token.Text [ch]) rfl _ hf)
                        (fun x => x)
                      rw [contents_write_token, slice_one hlt.1, hlt.2]
                      rfl
            · -- the post-stop check failed the frame
              have hstep : parse_until_loop (f + 1) text defs stop st = .bad ⟨st.head, rest⟩ := by
                rw [parse_until_loop_eq, hpre']
                dsimp only
                rw [hcs]
                dsimp only
                rw [hpost]
              refine ⟨?_, ?_, ?_⟩
              · intro toks st' hx
                rw [hstep] at hx
                cases hx
              · intro st' hx
                rw [hstep] at hx
                injection hx with h1
                rw [← h1]
              · intro e hx
                rw [hstep] at hx
                cases hx
          cases stop with
          | END =>
            have hcs : catch_stop text .END st = (false, st) := by
              simp [catch_stop, hch]
            exact hdispatch hcs
          | lit s =>
            by_cases hmatch : (List.range s.length).all
                (fun i => read text st.head (i : Int) false == .chr (s.getD i ' ')) = true
            · have hsne : s ≠ [] := hso
              have hlen1 : 1 ≤ s.length := by
                cases s with
                | nil => exact absurd rfl hsne
                | cons a l => simp
              have hcs : catch_stop text (.lit s) st =
                  (true, ⟨st.head + s.length - 1, st.frames⟩) := by
                simp only [catch_stop, hch]
                rw [if_neg (by simp), if_pos hmatch]
              have hstep : parse_until_loop (f + 1) text defs (.lit s) st =
                  .ok fr ⟨st.head + s.length - 1, rest⟩ := by
                rw [parse_until_loop_eq, hpre']
                dsimp only
                rw [hcs]
                dsimp only
                exact pop_cons h
              refine ⟨?_, ?_, ?_⟩
              · intro toks st' hx
                rw [hstep] at hx
                injection hx with h1 h2
                subst h1
                subst h2
                dsimp only
                refine ⟨rfl, by omega, fun x => x, fun x => x, ?_, ?_⟩
                · intro hEND
                  exact Stop.noConfusion hEND
                · intro s' hs' hc7
                  injection hs' with hss
                  subst hss
                  have hp : st.head + s.length - 1 + 1 - s.length = st.head := by omega
                  refine ⟨by omega, by omega, ?_, ?_⟩
                  · rw [hp, slice_self, List.append_nil]
                  · intro i hi
                    rw [hp]
                    have hx := at_head_iff.mp hmatch i hi
                    rw [read_shift] at hx
                    exact hx
              · intro st' hx
                rw [hstep] at hx
                cases hx
              · intro e hx
                rw [hstep] at hx
                cases hx
            · have hcs : catch_stop text (.lit s) st = (false, st) := by
                simp only [catch_stop, hch]
                rw [if_neg (by simp), if_neg hmatch]
              exact hdispatch hcs
        · -- end of input, no template context
          have hlen : text.length ≤ st.head := read_zero_END_iff.mp hch
          have hc7 : ¬ c &&& contexts.TEMPLATE ≠ 0 := fun hc => hpre ⟨hch, hc⟩
          have hcs : catch_stop text stop st = (true, st) := by
            simp [catch_stop, hch]
          have hstep : parse_until_loop (f + 1) text defs stop st = .ok fr ⟨st.head, rest⟩ := by
            rw [parse_until_loop_eq, hpre']
            dsimp only
            rw [hcs]
            dsimp only
            exact pop_cons h
          refine ⟨?_, ?_, ?_⟩
          · intro toks st' hx
            rw [hstep] at hx
            injection hx with h1 h2
            subst h1
            subst h2
            dsimp only
            refine ⟨rfl, le_refl _, fun x => x, fun x => x, ?_, ?_⟩
            · intro _
              rw [drop_of_ge hlen, List.append_nil]
            · intro s hs hc
              exact absurd hc hc7
          · intro st' hx
            rw [hstep] at hx
            cases hx
          · intro e hx
            rw [hstep] at hx
            cases hx
    · -- parse_until at fuel f + 1
      intro stop ctx st hso
      have hl := ihL stop ⟨st.head, ([], ctx) :: st.frames⟩ [] ctx st.frames hso rfl
      refine ⟨?_, ?_, ?_⟩
      · intro toks st' hx
        rw [parse_until_eq] at hx
        obtain ⟨g1, g2, g3, g4, g5, g6⟩ := hl.1 toks st' hx
        dsimp only at g2
        refine ⟨g1, g2, g3 no_adjacent_text_nil, g4 balanced_nil, ?_, ?_⟩
        · intro hE
          have g5' := g5 hE
          dsimp only at g5'
          rwa [contents_nil, List.nil_append] at g5'
        · intro s hs hc7
          obtain ⟨b1, b2, b3, b4⟩ := g6 s hs hc7
          dsimp only at b1 b2 b3 b4
          rw [contents_nil, List.nil_append] at b3
          exact ⟨b1, b2, b3, b4⟩
      · intro st' hx
        rw [parse_until_eq] at hx
        exact hl.2.1 st' hx
      · intro e hx
        rw [parse_until_eq] at hx
        exact hl.2.2 e hx
    · -- parse_template at fuel f + 1
      intro st fr c rest h r0 r1
      have hb0 : st.head < text.length ∧ text.getD st.head ' ' = '{' := read_zero_chr_iff.mp r0
      have hb1 : st.head + 1 < text.length ∧ text.getD (st.head + 1) ' ' = '{' :=
        read_chr_iff.mp r1
      have hso2 : stop_ok (Stop.lit ['}', '}']) := by
        simp [stop_ok]
      have hu := ihU (.lit ['}', '}']) contexts.TEMPLATE_NAME ⟨st.head + 2, st.frames⟩ hso2
      rcases hin : parse_until f text defs (.lit ['}', '}']) contexts.TEMPLATE_NAME
          ⟨st.head + 2, st.frames⟩ with ⟨template, st1⟩ | st1 | e | _
      · -- the speculative parse succeeded
        obtain ⟨g1, g2, g3, g4, _, g6⟩ := hu.1 template st1 hin
        dsimp only at g1 g2
        obtain ⟨b1, b2, b3, b4⟩ := g6 ['}', '}'] rfl (by decide)
        dsimp only at b1 b2 b3 b4
        have hsl : (['}', '}'] : List Char).length = 2 := rfl
        rw [hsl] at b1 b2 b3 b4
        have hread0 := b4 0 (by simp)
        have hread1 := b4 1 (by simp)
        have hcl0 : st1.head + 1 - 2 < text.length ∧
            text.getD (st1.head + 1 - 2) ' ' = '}' := by
          have hx := read_zero_chr_iff.mp (by simpa using hread0)
          simpa using hx
        have hcl1 : st1.head + 1 - 2 + 1 < text.length ∧
            text.getD (st1.head + 1 - 2 + 1) ' ' = '}' := by
          have hx := read_zero_chr_iff.mp (by simpa using hread1)
          simpa using hx
        have hfr1 : st1.frames = (fr, c) :: rest := g1.trans h
        have hstep : parse_template (f + 1) text defs st =
            .ok () ⟨st1.head,
              (write_token .TemplateClose (write_token .TemplateOpen fr ++ template), c)
                :: rest⟩ := by
          rw [parse_template_eq, hin]
          dsimp only
          rw [write_cons hfr1 .TemplateOpen]
          dsimp only
          rw [write_all_cons rfl template]
          dsimp only
          exact write_cons rfl .TemplateClose
        refine ⟨?_, ?_, ?_⟩
        · intro st' hx
          rw [hstep] at hx
          injection hx with _ hx2
          subst hx2
          dsimp only
          have e1 : write_token .TemplateOpen fr = fr ++ [Token.TemplateOpen] :=
            @write_token_of_marker Token.TemplateOpen rfl fr
          have e2 : write_token .TemplateClose (write_token .TemplateOpen fr ++ template) =
              (fr ++ [Token.TemplateOpen] ++ template) ++ [Token.TemplateClose] := by
            rw [e1]
            exact @write_token_of_marker Token.TemplateClose rfl _
          have hp1 : st1.head + 1 - 2 + 1 = st1.head := by omega
          refine ⟨_, rfl, by omega, by omega, ?_, ?_, ?_⟩
          · rw [e2]
            rw [contents_append, contents_append, contents_append, contents_single,
              contents_single, b3]
            have hs0 : slice text st.head (st1.head + 1) =
                slice text st.head (st.head + 2) ++
                slice text (st.head + 2) (st1.head + 1 - 2) ++
                slice text (st1.head + 1 - 2) (st1.head + 1) := by
              rw [@slice_append text st.head (st.head + 2) _ (by omega) (by omega),
                @slice_append text st.head (st1.head + 1 - 2) _ (by omega) (by omega)]
            have hs1 : slice text st.head (st.head + 2) = ['{', '{'] := by
              rw [slice_cons hb0.1 (by omega), hb0.2]
              rw [show (st.head).succ = st.head + 1 from rfl]
              rw [slice_one hb1.1, hb1.2]
            have hs2 : slice text (st1.head + 1 - 2) (st1.head + 1) = ['}', '}'] := by
              obtain ⟨p, hp⟩ : ∃ p, st1.head + 1 - 2 = p := ⟨_, rfl⟩
              have hpl : p < text.length := hp ▸ hcl0.1
              have hpd : text.getD p ' ' = '}' := hp ▸ hcl0.2
              have hpl1 : p + 1 < text.length := by
                have hx := hcl1.1
                omega
              have hpd1 : text.getD (p + 1) ' ' = '}' := by
                rw [← hp]
                exact hcl1.2
              have hq : st1.head + 1 = p + 2 := by omega
              rw [hp, hq]
              rw [slice_cons hpl (by omega), hpd]
              rw [show p.succ = p + 1 from rfl]
              rw [show p + 2 = p + 1 + 1 from rfl]
              rw [slice_one hpl1, hpd1]
            rw [hs0, hs1, hs2]
            simp [token_chars, List.append_assoc]
          · intro hf
            rw [e2]
            refine no_adjacent_text_concat ?_ ?_
            · refine no_adjacent_text_append ?_ (g3) ?_
              · exact no_adjacent_text_concat hf
                  (fun x _ => Or.inr (by simp [is_text]))
              · intro x hx y hy
                rw [List.getLast?_concat] at hx
                simp only [Option.mem_def, Option.some.injEq] at hx
                subst hx
                exact Or.inl (by simp [is_text])
            · intro x _
              exact Or.inr (by simp [is_text])
          · intro hf
            rw [e2]
            have : fr ++ [Token.TemplateOpen] ++ template ++ [Token.TemplateClose] =
                fr ++ (Token.TemplateOpen :: (template ++ [Token.TemplateClose])) := by
              simp
            rw [this]
            exact balanced_append hf (balanced_wrap g4)
        · intro st' hx
          rw [hstep] at hx
          cases hx
        · intro e hx
          rw [hstep] at hx
          cases hx
      · -- the speculative parse failed: roll back
        have hfr1 : st1.frames = (fr, c) :: rest := by
          have hx := hu.2.1 st1 hin
          dsimp only at hx
          exact hx.trans h
        have hstep : parse_template (f + 1) text defs st =
            .ok () ⟨st.head, (write_token (.Text ['{']) fr, c) :: rest⟩ := by
          rw [parse_template_eq, hin]
          dsimp only
          rw [r0, read_chars_chr]
          exact write_cons (show (⟨st.head, st1.frames⟩ : St).frames = (fr, c) :: rest
            from hfr1) (.Text ['{'])
        refine ⟨?_, ?_, ?_⟩
        · intro st' hx
          rw [hstep] at hx
          injection hx with _ hx2
          subst hx2
          dsimp only
          refine ⟨_, rfl, le_refl _, hb0.1, ?_, ?_, ?_⟩
          · rw [contents_write_token, slice_one hb0.1, hb0.2]
            rfl
          · intro hf
            exact no_adjacent_text_write_token _ hf
          · intro hf
            exact @balanced_write_token (Token.Text ['{']) rfl _ hf
        · intro st' hx
          rw [hstep] at hx
          cases hx
        · intro e hx
          rw [hstep] at hx
          cases hx
      · have hstep : parse_template (f + 1) text defs st = .err e := by
          rw [parse_template_eq, hin]
        refine ⟨?_, ?_, ?_⟩
        · intro st' hx
          rw [hstep] at hx
          cases hx
        · intro st' hx
          rw [hstep] at hx
          cases hx
        · intro e' hx
          rw [hstep] at hx
          injection hx with h1
          rw [← h1]
          exact hu.2.2 e hin
      · have hstep : parse_template (f + 1) text defs st = .nofuel := by
          rw [parse_template_eq, hin]
        refine ⟨?_, ?_, ?_⟩
        · intro st' hx
          rw [hstep] at hx
          cases hx
        · intro st' hx
          rw [hstep] at hx
          cases hx
        · intro e hx
          rw [hstep] at hx
          cases hx

/-! ## Fuel sufficiency: the embedding's fuel never runs out -/

theorem write_res (tok : Token) (st : St) :
    (∃ st', write tok st = .ok () st') ∨ write tok st = .err .indexError := by
  rcases hfr : st.frames with _ | ⟨⟨s, c⟩, rest⟩
  · right
    simp [write, hfr]
  · left
    exact ⟨_, write_cons hfr tok⟩

theorem write_all_res (tokenlist : List Token) (st : St) :
    (∃ st', write_all tokenlist st = .ok () st') ∨ write_all tokenlist st = .err .indexError := by
  rcases hfr : st.frames with _ | ⟨⟨s, c⟩, rest⟩
  · right
    simp [write_all, hfr]
  · left
    exact ⟨_, write_all_cons hfr tokenlist⟩

theorem pop_res (st : St) :
    (∃ toks st', pop st = .ok toks st') ∨ pop st = .err .indexError := by
  rcases hfr : st.frames with _ | ⟨⟨s, c⟩, rest⟩
  · right
    simp [pop, hfr]
  · left
    exact ⟨_, _, pop_cons hfr⟩

theorem raise_bad_res (st : St) :
    (∃ st', raise_bad st = .bad st') ∨ raise_bad st = .err .indexError := by
  rcases hfr : st.frames with _ | ⟨⟨s, c⟩, rest⟩
  · right
    simp [raise_bad, hfr]
  · left
    exact ⟨_, raise_bad_cons hfr⟩

theorem verify_context_pre_stop_res (text : List Char) (st : St) :
    verify_context_pre_stop text st = .ok () st ∨
      (∃ st', verify_context_pre_stop text st = .bad st') ∨
      verify_context_pre_stop text st = .err .indexError := by
  unfold verify_context_pre_stop
  by_cases h1 : read text st.head 0 false = .END
  · rw [if_pos h1]
    by_cases h2 : context st &&& contexts.TEMPLATE ≠ 0
    · rw [if_pos h2]
      rcases raise_bad_res st with ⟨st', hb⟩ | hb
      · right
        left
        exact ⟨st', hb⟩
      · right
        right
        exact hb
    · rw [if_neg h2]
      left
      rfl
  · rw [if_neg h1]
    left
    rfl

theorem verify_context_post_stop_res (text : List Char) (st : St) :
    verify_context_post_stop text st = .ok () st ∨
      (∃ st', verify_context_post_stop text st = .bad st') ∨
      verify_context_post_stop text st = .err .indexError := by
  unfold verify_context_post_stop
  by_cases h1 : context st &&& contexts.TEMPLATE_NAME ≠ 0 ∧ stack st ≠ []
  · rw [if_pos h1]
    rcases hl : (stack st).getLast? with _ | t
    · left
      rfl
    · cases t with
      | Text tt =>
        dsimp only
        by_cases h2 : strip tt ≠ [] ∧ tt.getLast? = some '\n'
        · rw [if_pos h2]
          by_cases h3 : read text st.head 0 false ∉
              [ReadChar.chr '|', ReadChar.chr '=', ReadChar.chr '\n']
          · rw [if_pos h3]
            rcases raise_bad_res st with ⟨st', hb⟩ | hb
            · right
              left
              exact ⟨st', hb⟩
            · right
              right
              exact hb
          · rw [if_neg h3]
            left
            rfl
        · rw [if_neg h2]
          left
          rfl
      | TemplateOpen => left; rfl
      | TemplateClose => left; rfl
      | TemplateParamSeparator => left; rfl
      | TemplateParamEquals => left; rfl
      | HTMLEntityStart => left; rfl
      | HTMLEntityNumeric => left; rfl
      | HTMLEntityHex c => left; rfl
      | HTMLEntityEnd => left; rfl
  · rw [if_neg h1]
    left
    rfl

theorem fuel_scan (text : List Char) (defs : List (List Char)) :
    ∀ (fuel : Nat) (numeric hexadecimal : Bool) (valid acc : List Char) (st : St),
      st.head ≤ text.length → text.length + 2 ≤ fuel + st.head →
      entity_scan fuel text defs numeric hexadecimal valid acc st ≠ .nofuel := by
  intro fuel
  induction fuel with
  | zero =>
    intro numeric hexadecimal valid acc st h1 h2
    omega
  | succ f ih =>
    intro numeric hexadecimal valid acc st h1 h2
    by_cases hsemi : at_head text st.head [';'] = true
    · cases numeric with
      | false =>
        by_cases hmem : acc ∈ defs
        · simp only [entity_scan, if_pos hsemi, Bool.false_eq_true, if_false, if_pos hmem]
          rcases write_res (.Text acc) st with ⟨st1, hw⟩ | hw <;> rw [hw]
          · dsimp only
            rcases write_res .HTMLEntityEnd st1 with ⟨st2, hw2⟩ | hw2 <;> rw [hw2] <;> simp
          · simp
        · simp only [entity_scan, if_pos hsemi, Bool.false_eq_true, if_false, if_neg hmem]
          rcases raise_bad_res st with ⟨st1, hb⟩ | hb <;> rw [hb] <;> simp
      | true =>
        rcases hpy : py_int hexadecimal acc with _ | v
        · simp only [entity_scan, if_pos hsemi, if_true, hpy]
          simp
        · by_cases hbound : v < 1 ∨ 0x10FFFF < v
          · simp only [entity_scan, if_pos hsemi, if_true, hpy, if_pos hbound]
            rcases raise_bad_res st with ⟨st1, hb⟩ | hb <;> rw [hb] <;> simp
          · simp only [entity_scan, if_pos hsemi, if_true, hpy, if_neg hbound]
            rcases write_res (.Text acc) st with ⟨st1, hw⟩ | hw <;> rw [hw]
            · dsimp only
              rcases write_res .HTMLEntityEnd st1 with ⟨st2, hw2⟩ | hw2 <;> rw [hw2] <;> simp
            · simp
    · rcases hr : read text st.head 0 false with _ | ch | _
      · simp only [entity_scan, if_neg hsemi, hr]
        rcases raise_bad_res st with ⟨st1, hb⟩ | hb <;> rw [hb] <;> simp
      · by_cases hv : ch ∈ valid
        · simp only [entity_scan, if_neg hsemi, hr, if_pos hv]
          have hlt : st.head < text.length := (read_zero_chr_iff.mp hr).1
          exact ih numeric hexadecimal valid (acc ++ [ch]) ⟨st.head + 1, st.frames⟩
            (by dsimp only; omega) (by dsimp only; omega)
        · simp only [entity_scan, if_neg hsemi, hr, if_neg hv]
          rcases raise_bad_res st with ⟨st1, hb⟩ | hb <;> rw [hb] <;> simp
      · simp only [entity_scan, if_neg hsemi, hr]
        rcases raise_bad_res st with ⟨st1, hb⟩ | hb <;> rw [hb] <;> simp

theorem fuel_body (text : List Char) (defs : List (List Char)) :
    ∀ (fuel : Nat) (st : St),
      st.head ≤ text.length → text.length + 2 ≤ fuel + st.head →
      parse_entity_body fuel text defs st ≠ .nofuel := by
  intro fuel st h1 h2
  rw [parse_entity_body_eq]
  by_cases hH : at_head text st.head ['#'] = true
  · rw [if_pos hH]
    have hsharp : st.head < text.length := (read_zero_chr_iff.mp (at_head_one.mp hH)).1
    rcases hr1 : read text st.head 1 false with _ | c2 | _
    · simp
    · dsimp only
      have hc2 : st.head + 1 < text.length := (read_chr_iff.mp hr1).1
      by_cases hx2 : c2.toLower = 'x'
      · rw [if_pos hx2]
        exact fuel_scan text defs fuel true true hexdigits []
          ⟨st.head + 2, _⟩ (by dsimp only; omega) (by dsimp only; omega)
      · rw [if_neg hx2]
        exact fuel_scan text defs fuel true false digits []
          ⟨st.head + 1, _⟩ (by dsimp only; omega) (by dsimp only; omega)
    · simp
  · rw [if_neg hH]
    exact fuel_scan text defs fuel false false (digits ++ ascii_letters) []
      ⟨st.head, _⟩ (by dsimp only; omega) (by dsimp only; omega)

theorem fuel_entity (text : List Char) (defs : List (List Char)) :
    ∀ (fuel : Nat) (st : St),
      st.head + 1 ≤ text.length → text.length + 3 ≤ fuel + st.head →
      parse_entity fuel text defs st ≠ .nofuel := by
  intro fuel st h1 h2
  cases fuel with
  | zero => omega
  | succ f =>
    rw [parse_entity_eq]
    rcases hbody : parse_entity_body f text defs ⟨st.head + 1, st.frames⟩ with ⟨u, st1⟩ | st1 | e | _
    · dsimp only
      rcases pop_res st1 with ⟨toks, st2, hp⟩ | hp <;> rw [hp]
      · dsimp only
        rcases write_all_res toks st2 with ⟨st3, hw⟩ | hw <;> rw [hw] <;> simp
      · simp
    · dsimp only
      rcases write_res (.Text (read_chars (read text st.head 0 false))) ⟨st.head, st1.frames⟩ with
        ⟨st2, hw⟩ | hw <;> rw [hw] <;> simp
    · simp
    · exact absurd hbody (fuel_body text defs f ⟨st.head + 1, st.frames⟩
        (by dsimp only; omega) (by dsimp only; omega))

theorem fuel_engine (text : List Char) (defs : List (List Char)) :
    ∀ fuel : Nat,
      (∀ (stop : Stop) (st : St) (fr : List Token) (c : Nat) (rest : List (List Token × Nat)),
        st.frames = (fr, c) :: rest → st.head ≤ text.length + 1 →
        4 * text.length + 12 ≤ fuel + 4 * st.head →
        parse_until_loop fuel text defs stop st ≠ .nofuel) ∧
      (∀ (stop : Stop) (ctx : Nat) (st : St),
        st.head ≤ text.length + 1 →
        4 * text.length + 13 ≤ fuel + 4 * st.head →
        parse_until fuel text defs stop ctx st ≠ .nofuel) ∧
      (∀ st : St,
        st.head + 1 ≤ text.length →
        4 * text.length + 6 ≤ fuel + 4 * st.head →
        parse_template fuel text defs st ≠ .nofuel) := by
  intro fuel
  induction fuel with
  | zero =>
    refine ⟨?_, ?_, ?_⟩
    · intro stop st fr c rest _ h1 h2
      omega
    · intro stop ctx st h1 h2
      omega
    · intro st h1 h2
      omega
  | succ f ih =>
    obtain ⟨ihL, ihU, ihT⟩ := ih
    refine ⟨?_, ?_, ?_⟩
    · intro stop st fr c rest h h1 h2
      rcases verify_context_pre_stop_res text st with hpre | ⟨st1, hpre⟩ | hpre
      rotate_left
      · rw [parse_until_loop_eq, hpre]
        simp
      · rw [parse_until_loop_eq, hpre]
        simp
      rw [parse_until_loop_eq, hpre]
      dsimp only
      rcases hcs : catch_stop text stop st with ⟨b, st2⟩
      cases b with
      | true =>
        dsimp only
        rcases pop_res st2 with ⟨toks, st3, hp⟩ | hp <;> rw [hp] <;> simp
      | false =>
        have hst2 : st2 = st := by
          unfold catch_stop at hcs
          by_cases hE : read text st.head 0 false = .END
          · rw [if_pos hE] at hcs
            cases hcs
          · rw [if_neg hE] at hcs
            cases stop with
            | END =>
              dsimp only at hcs
              injection hcs with _ h2'
              exact h2'.symm
            | lit s =>
              dsimp only at hcs
              by_cases hm : (List.range s.length).all
                  (fun i => read text st.head (i : Int) false == .chr (s.getD i ' ')) = true
              · rw [if_pos hm] at hcs
                cases hcs
              · rw [if_neg hm] at hcs
                injection hcs with _ h2'
                exact h2'.symm
        have hcs' : catch_stop text stop st = (false, st) := by
          rw [hcs, hst2]
        dsimp only
        rw [hst2]
        rcases verify_context_post_stop_res text st with hpost | ⟨st3, hpost⟩ | hpost
        rotate_left
        · rw [hpost]
          simp
        · rw [hpost]
          simp
        rw [hpost]
        dsimp only
        have hE : read text st.head 0 false ≠ .END := by
          intro hE
          unfold catch_stop at hcs'
          rw [if_pos hE] at hcs'
          cases hcs'
        have hlt : st.head < text.length := by
          rcases hr : read text st.head 0 false with _ | ch | _
          · exfalso
            have hz := read_zero text st.head
            rw [hr] at hz
            by_cases hl : st.head < text.length <;> simp [hl] at hz
          · exact (read_zero_chr_iff.mp hr).1
          · exact absurd hr hE
        by_cases hc1 : at_head text st.head ['{', '{'] = true
        · rw [if_pos hc1]
          have hb1 : st.head + 1 < text.length :=
            (read_chr_iff.mp (at_head_two.mp hc1).2).1
          have htspec := engine_spec text defs f
          rcases htr : parse_template f text defs st with ⟨u, st4⟩ | st4 | e | _
          · dsimp only
            obtain ⟨fr', hfr', hm4, hl4, _, _, _⟩ :=
              (htspec.2.2 st fr c rest h (at_head_two.mp hc1).1 (at_head_two.mp hc1).2).1
                st4 htr
            exact ihL stop ⟨st4.head + 1, st4.frames⟩ fr' c rest hfr'
              (by dsimp only; omega) (by dsimp only; omega)
          · simp
          · simp
          · exact absurd htr (ihT st (by omega) (by omega))
        · rw [if_neg hc1]
          by_cases hc2 : at_head text st.head ['|'] = true ∧
              context st &&& contexts.TEMPLATE ≠ 0
          · rw [if_pos hc2]
            obtain ⟨c', hhp, _⟩ := handle_template_param_cons h
            rw [hhp]
            dsimp only
            exact ihL stop _ _ c' rest rfl (by dsimp only; omega) (by dsimp only; omega)
          · rw [if_neg hc2]
            by_cases hc3 : at_head text st.head ['='] = true ∧
                context st &&& contexts.TEMPLATE_PARAM_KEY ≠ 0
            · rw [if_pos hc3]
              obtain ⟨c', hhp, _⟩ := handle_template_param_value_cons h
              rw [hhp]
              dsimp only
              exact ihL stop _ _ c' rest rfl (by dsimp only; omega) (by dsimp only; omega)
            · rw [if_neg hc3]
              by_cases hc4 : at_head text st.head ['&'] = true
              · rw [if_pos hc4]
                have hespec := parse_entity_spec text defs f st fr c rest h
                  (at_head_one.mp hc4)
                rcases her : parse_entity f text defs st with ⟨u, st4⟩ | st4 | e | _
                · dsimp only
                  obtain ⟨fr', hfr', hm4, hl4, _, _, _⟩ := hespec.1 st4 her
                  exact ihL stop ⟨st4.head + 1, st4.frames⟩ fr' c rest hfr'
                    (by dsimp only; omega) (by dsimp only; omega)
                · simp
                · simp
                · exact absurd her (fuel_entity text defs f st (by omega) (by omega))
              · rw [if_neg hc4]
                rcases write_res (.Text (read_chars (read text st.head 0 false))) st with
                  ⟨st4, hw⟩ | hw <;> rw [hw]
                · dsimp only
                  have hfr4 : st4.frames = (write_token
                      (.Text (read_chars (read text st.head 0 false))) fr, c) :: rest ∧
                      st4.head = st.head := by
                    rw [write_cons h] at hw
                    injection hw with _ hx2
                    rw [← hx2]
                    exact ⟨rfl, rfl⟩
                  exact ihL stop ⟨st4.head + 1, st4.frames⟩ _ c rest hfr4.1
                    (by dsimp only; omega) (by dsimp only; omega)
                · simp
    · intro stop ctx st h1 h2
      rw [parse_until_eq]
      exact ihL stop ⟨st.head, ([], ctx) :: st.frames⟩ [] ctx st.frames rfl
        (by dsimp only; omega) (by dsimp only; omega)
    · intro st h1 h2
      rw [parse_template_eq]
      rcases hin : parse_until f text defs (.lit ['}', '}']) contexts.TEMPLATE_NAME
          ⟨st.head + 2, st.frames⟩ with ⟨template, st1⟩ | st1 | e | _
      · dsimp only
        rcases write_res .TemplateOpen st1 with ⟨st2, hw⟩ | hw <;> rw [hw]
        · dsimp only
          rcases write_all_res template st2 with ⟨st3, hw2⟩ | hw2 <;> rw [hw2]
          · dsimp only
            rcases write_res .TemplateClose st3 with ⟨st4, hw3⟩ | hw3 <;> rw [hw3] <;> simp
          · simp
        · simp
      · dsimp only
        rcases write_res (.Text (read_chars (read text st.head 0 false))) ⟨st.head, st1.frames⟩
          with ⟨st2, hw⟩ | hw <;> rw [hw] <;> simp
      · simp
      · exact absurd hin (ihU (.lit ['}', '}']) contexts.TEMPLATE_NAME ⟨st.head + 2, st.frames⟩
          (by dsimp only; omega) (by dsimp only; omega))

/-! ## Top-level consequences for `tokenize` -/

/-- The top-level `tokenize` call through the lens of `engine_spec`: a
normal return carries the whole input as its contents, is free of adjacent
`Text` tokens, has balanced template markers and leaves the frame stack
empty; a `BadRoute` escape would also leave the stack empty; and no path
raises `IndexError`. -/
theorem tokenize_cases (text : List Char) (defs : List (List Char)) :
    (∀ toks st', tokenize text defs = .ok toks st' →
      contents toks = text ∧ no_adjacent_text toks ∧ balanced toks ∧ st'.frames = []) ∧
    (∀ st', tokenize text defs = .bad st' → st'.frames = []) ∧
    (∀ e, tokenize text defs = .err e → e ≠ .indexError) := by
  have hu := (engine_spec text defs (initial_fuel text)).2.1 .END 0 ⟨0, []⟩ trivial
  refine ⟨?_, ?_, hu.2.2⟩
  · intro toks st' hx
    obtain ⟨g1, _, g3, g4, g5, _⟩ := hu.1 toks st' hx
    dsimp only at g1
    refine ⟨?_, g3, g4, g1⟩
    have g5' := g5 rfl
    dsimp only at g5'
    simpa using g5'
  · intro st' hx
    have hb := hu.2.1 st' hx
    simpa using hb

/-! ## The claims -/

/-- C1: for every input string, concatenating the textual content of all
tokens returned by `tokenize` (Text content plus the literal delimiters
implied by the marker tokens, as recorded by `token_chars`) reconstructs
the original input exactly. -/
theorem tokenize_roundtrip (text : List Char) (defs : List (List Char))
    (toks : List Token) (st' : St) (h : tokenize text defs = .ok toks st') :
    contents toks = text :=
  ((tokenize_cases text defs).1 toks st' h).1

theorem tokenize_roundtrip_witness :
    contents [Token.Text ['x'], Token.TemplateOpen, Token.Text ['a'],
      Token.TemplateParamSeparator, Token.Text ['b'], Token.TemplateParamEquals,
      Token.Text ['c'], Token.TemplateClose, Token.HTMLEntityStart,
      Token.Text ['a', 'm', 'p'], Token.HTMLEntityEnd, Token.Text ['y']] =
      ['x', '{', '{', 'a', '|', 'b', '=', 'c', '}', '}', '&', 'a', 'm', 'p', ';', 'y'] :=
  tokenize_roundtrip ['x', '{', '{', 'a', '|', 'b', '=', 'c', '}', '}', '&', 'a', 'm', 'p', ';', 'y'] ["amp".toList] _ ⟨16, []⟩ rfl

/-- C2: the claim says no error of any kind propagates out of `tokenize`
and that inputs such as `&#`, `&#;` or `&#x;` degrade to literal text.
The code disagrees: `_parse_entity` guards its speculative body with
`except BadRoute` only, while the body can raise `ValueError` (from
`int('', 10)` / `int('', 16)` when `;` immediately follows `#` or `#x`)
and `AttributeError` (from `self._read().lower()` when the cursor sits on
the `END` sentinel, an int). These escape `tokenize` uncaught. -/
theorem tokenize_error_escape :
    tokenize "&#;".toList [] = .err .valueError ∧
    tokenize "&#".toList [] = .err .attributeError ∧
    tokenize "&#x;".toList [] = .err .valueError :=
  ⟨rfl, rfl, rfl⟩

/-- C3: for every finite input string, `tokenize` terminates: on the
fuel budget `initial_fuel` the dispatch loop, the entity scanning loop
and the mutually recursive template sub-parses all complete (with a
normal return, a `BadRoute`, or a raised exception) — the fuel the
embedding threads through is never exhausted. -/
theorem tokenize_terminates (text : List Char) (defs : List (List Char)) :
    (tokenize text defs).completed = true := by
  have h := (fuel_engine text defs (initial_fuel text)).2.1 .END 0 ⟨0, []⟩
    (by dsimp only; omega) (by dsimp only [initial_fuel]; omega)
  unfold tokenize
  unfold tokenize at h
  rcases hx : parse_until (initial_fuel text) text defs .END 0 ⟨0, []⟩ with
    ⟨toks, st'⟩ | st' | e | _
  · rfl
  · rfl
  · rfl
  · exact absurd hx h

/-- C4: every `TemplateOpen` in `tokenize` output is matched by a
`TemplateClose` (the marker weights are balanced with no prefix dipping
negative), and an unterminated `{{` at end of input yields only literal
`{` text — no template tokens. -/
theorem tokenize_template_balance :
    (∀ (text : List Char) (defs : List (List Char)) (toks : List Token) (st' : St),
      tokenize text defs = .ok toks st' → balanced toks) ∧
    tokenize ['{', '{', 'a'] [] = .ok [Token.Text ['{', '{', 'a']] ⟨3, []⟩ := by
  refine ⟨?_, rfl⟩
  intro text defs toks st' h
  exact ((tokenize_cases text defs).1 toks st' h).2.2.1

theorem tokenize_template_balance_witness :
    balanced [Token.TemplateOpen, Token.Text ['a'], Token.TemplateClose] :=
  tokenize_template_balance.1 ['{', '{', 'a', '}', '}'] [] _ ⟨5, []⟩ rfl

/-- C5: numeric entities are accepted exactly on `[1, 0x10FFFF]`:
`&#0;` and `&#1114112;` come back as literal text while `&#1;` and
`&#1114111;` come back as entity token runs. -/
theorem tokenize_entity_bounds :
    tokenize "&#0;".toList [] = .ok [Token.Text ['&', '#', '0', ';']] ⟨4, []⟩ ∧
    tokenize "&#1114112;".toList [] =
      .ok [Token.Text ['&', '#', '1', '1', '1', '4', '1', '1', '2', ';']] ⟨10, []⟩ ∧
    tokenize "&#1;".toList [] =
      .ok [Token.HTMLEntityStart, Token.HTMLEntityNumeric, Token.Text ['1'],
        Token.HTMLEntityEnd] ⟨4, []⟩ ∧
    tokenize "&#1114111;".toList [] =
      .ok [Token.HTMLEntityStart, Token.HTMLEntityNumeric,
        Token.Text ['1', '1', '1', '4', '1', '1', '1'], Token.HTMLEntityEnd] ⟨10, []⟩ :=
  ⟨rfl, rfl, rfl, rfl⟩

/-- C6: inside a template `|` emits `TemplateParamSeparator` and `=`
emits `TemplateParamEquals` only while the parameter-key context is set,
so `{{a|b=c|d}}` yields exactly the nine claimed tokens and the second
`=` of `{{a|b=c=d}}` stays plain text. -/
theorem tokenize_param_transitions :
    tokenize ['{', '{', 'a', '|', 'b', '=', 'c', '|', 'd', '}', '}'] [] =
      .ok [Token.TemplateOpen, Token.Text ['a'], Token.TemplateParamSeparator,
        Token.Text ['b'], Token.TemplateParamEquals, Token.Text ['c'],
        Token.TemplateParamSeparator, Token.Text ['d'], Token.TemplateClose] ⟨11, []⟩ ∧
    tokenize ['{', '{', 'a', '|', 'b', '=', 'c', '=', 'd', '}', '}'] [] =
      .ok [Token.TemplateOpen, Token.Text ['a'], Token.TemplateParamSeparator,
        Token.Text ['b'], Token.TemplateParamEquals, Token.Text ['c', '=', 'd'],
        Token.TemplateClose] ⟨11, []⟩ :=
  ⟨rfl, rfl⟩

/-- C7: while scanning a template name, if the frame's last token is a
`Text` whose content is non-empty after trimming and ends with a newline
and the next character is none of `|`, `=`, newline, the post-stop check
fails the frame; consequently `{{a\n\nb}}` tokenizes as one literal
`Text` token covering the whole input. -/
theorem template_name_newline_check (text : List Char) (st : St) (fr : List Token)
    (c : Nat) (rest : List (List Token × Nat)) (cs : List Char)
    (h : st.frames = (fr, c) :: rest)
    (hc : c &&& contexts.TEMPLATE_NAME ≠ 0)
    (hlast : fr.getLast? = some (.Text cs))
    (hstrip : strip cs ≠ [])
    (hnl : cs.getLast? = some '\n')
    (hread : read text st.head 0 false ∉
      [ReadChar.chr '|', ReadChar.chr '=', ReadChar.chr '\n']) :
    verify_context_post_stop text st = .bad ⟨st.head, rest⟩ ∧
    tokenize ['{', '{', 'a', '\n', '\n', 'b', '}', '}'] [] =
      .ok [Token.Text ['{', '{', 'a', '\n', '\n', 'b', '}', '}']] ⟨8, []⟩ := by
  refine ⟨?_, rfl⟩
  have hne : fr ≠ [] := by
    intro hnil
    rw [hnil] at hlast
    cases hlast
  unfold verify_context_post_stop
  rw [context_cons h, stack_cons h, if_pos ⟨hc, hne⟩, hlast]
  dsimp only
  rw [if_pos ⟨hstrip, hnl⟩, if_pos hread]
  exact raise_bad_cons h

theorem template_name_newline_check_witness :
    verify_context_post_stop "b".toList ⟨0, [([Token.Text ['a', '\n']], 1)]⟩ =
      .bad ⟨0, []⟩ :=
  (template_name_newline_check "b".toList ⟨0, [([Token.Text ['a', '\n']], 1)]⟩
    [Token.Text ['a', '\n']] 1 [] ['a', '\n'] rfl (by decide) rfl (by decide) rfl
    (by decide)).1

/-- C8: speculative rollback is atomic. When the inner `_parse_until` of
a template speculation (resp. the speculative body of an entity) raises
`BadRoute`, the sub-parser returns normally with the cursor restored to
the recorded reset point, exactly the single recorded character written
into the parent frame as `Text`, and the frame stack exactly as before
the speculation — no token of the discarded frame survives. -/
theorem speculative_rollback (text : List Char) (defs : List (List Char)) (f : Nat)
    (st : St) (fr : List Token) (c : Nat) (rest : List (List Token × Nat))
    (c0 : Char) (stf stf2 : St) :
    (st.frames = (fr, c) :: rest →
      read text st.head 0 false = .chr c0 →
      parse_until f text defs (.lit ['}', '}']) contexts.TEMPLATE_NAME
        ⟨st.head + 2, st.frames⟩ = .bad stf →
      parse_template (f + 1) text defs st =
        .ok () ⟨st.head, (write_token (.Text [c0]) fr, c) :: rest⟩) ∧
    (st.frames = (fr, c) :: rest →
      read text st.head 0 false = .chr c0 →
      parse_entity_body f text defs ⟨st.head + 1, st.frames⟩ = .bad stf2 →
      parse_entity (f + 1) text defs st =
        .ok () ⟨st.head, (write_token (.Text [c0]) fr, c) :: rest⟩) := by
  constructor
  · intro h hr0 hin
    have hfr : stf.frames = st.frames := by
      have hb := ((engine_spec text defs f).2.1 (.lit ['}', '}'])
        contexts.TEMPLATE_NAME ⟨st.head + 2, st.frames⟩ (by simp [stop_ok])).2.1 stf hin
      simpa using hb
    rw [parse_template_eq, hin]
    dsimp only
    rw [hr0]
    dsimp only [read_chars]
    rw [hfr]
    exact @write_cons ⟨st.head, st.frames⟩ fr c rest (by dsimp only; exact h) _
  · intro h hr0 hbad
    have hfr : stf2.frames = st.frames := by
      have hb := (parse_entity_body_spec text defs f ⟨st.head + 1, st.frames⟩).2.1 stf2 hbad
      simpa using hb
    rw [parse_entity_eq, hbad]
    dsimp only
    rw [hr0]
    dsimp only [read_chars]
    rw [hfr]
    exact @write_cons ⟨st.head, st.frames⟩ fr c rest (by dsimp only; exact h) _

theorem speculative_rollback_witness :
    parse_template 11 ['{', '{'] [] ⟨0, [([], 0)]⟩ =
      .ok () ⟨0, [([Token.Text ['{']], 0)]⟩ ∧
    parse_entity 11 "&?".toList [] ⟨0, [([], 0)]⟩ =
      .ok () ⟨0, [([Token.Text ['&']], 0)]⟩ :=
  ⟨(speculative_rollback ['{', '{'] [] 10 ⟨0, [([], 0)]⟩ [] 0 [] '{'
      ⟨2, [([], 0)]⟩ ⟨2, [([], 0)]⟩).1 rfl rfl rfl,
   (speculative_rollback "&?".toList [] 10 ⟨0, [([], 0)]⟩ [] 0 [] '&'
      ⟨2, [([], 0)]⟩ ⟨1, [([], 0)]⟩).2 rfl rfl rfl⟩

/-- C9 counterexample: the claim's second clause says every sequence
promoted via `_write_all` begins with a non-Text marker token. For input
`{{a}}` the inner template parse — run on exactly the state and fuel
`_parse_template` hands it inside `tokenize` — returns the token list
`[Text "a"]`, which `_parse_template` then promotes via `_write_all`; its
first token is a `Text` token. (The final output still has no adjacent
`Text` pair, because the promotion is preceded by the `TemplateOpen`
marker.) -/
theorem write_all_head_text_cex :
    parse_until (initial_fuel ['{', '{', 'a', '}', '}'] - 2) ['{', '{', 'a', '}', '}'] [] (.lit ['}', '}'])
      contexts.TEMPLATE_NAME ⟨2, [([], 0)]⟩ = .ok [Token.Text ['a']] ⟨4, [([], 0)]⟩ ∧
    is_text (Token.Text ['a']) = true ∧
    tokenize ['{', '{', 'a', '}', '}'] [] =
      .ok [Token.TemplateOpen, Token.Text ['a'], Token.TemplateClose] ⟨5, []⟩ :=
  ⟨rfl, rfl, rfl⟩

/-- C9 (amended): for every input and at every point during tokenization,
no frame's token sequence — nor the final output of `tokenize` — contains
two adjacent `Text` tokens. Every single `_write` preserves the invariant
for every frame by coalescing; every dispatch-loop run, `_parse_until`,
template and entity sub-parse preserves it on the success and the
`BadRoute` path alike and returns a coalesced token list; and although a
`_write_all`-promoted sequence may itself begin with a `Text` token (the
claim's clause to the contrary is refuted by `write_all_head_text_cex`),
a `_write_all` across a marker junction keeps the invariant, and both
promotion sites cross one: the template site promotes into a frame whose
last token is the just-written `TemplateOpen`, and the entity site
promotes a popped frame whose first token is `HTMLEntityStart`. -/
theorem no_adjacent_text_invariant (text : List Char) (defs : List (List Char)) :
    (∀ (tok : Token) (st st' : St), write tok st = .ok () st' →
      frames_ok st → frames_ok st') ∧
    (∀ (tokenlist : List Token) (st st' : St) (fr : List Token) (c : Nat)
        (rest : List (List Token × Nat)),
      st.frames = (fr, c) :: rest → write_all tokenlist st = .ok () st' →
      no_adjacent_text tokenlist →
      (∀ x ∈ fr.getLast?, ∀ y ∈ tokenlist.head?,
        is_text x = false ∨ is_text y = false) →
      frames_ok st → frames_ok st') ∧
    (∀ fr : List Token,
      (write_token Token.TemplateOpen fr).getLast? = some Token.TemplateOpen) ∧
    (∀ (fuel : Nat) (st st1 : St), parse_entity_body fuel text defs st = .ok () st1 →
      ∃ efr, st1.frames = (efr, 0) :: st.frames ∧
        efr.head? = some Token.HTMLEntityStart) ∧
    (∀ (fuel : Nat) (stop : Stop) (st : St) (fr : List Token) (c : Nat)
        (rest : List (List Token × Nat)) (toks : List Token) (st' : St),
      stop_ok stop → st.frames = (fr, c) :: rest →
      parse_until_loop fuel text defs stop st = .ok toks st' →
      frames_ok st → no_adjacent_text toks ∧ frames_ok st') ∧
    (∀ (fuel : Nat) (stop : Stop) (st : St) (fr : List Token) (c : Nat)
        (rest : List (List Token × Nat)) (st' : St),
      stop_ok stop → st.frames = (fr, c) :: rest →
      parse_until_loop fuel text defs stop st = .bad st' →
      frames_ok st → frames_ok st') ∧
    (∀ (fuel : Nat) (stop : Stop) (ctx : Nat) (st : St) (toks : List Token) (st' : St),
      stop_ok stop → parse_until fuel text defs stop ctx st = .ok toks st' →
      frames_ok st → no_adjacent_text toks ∧ frames_ok st') ∧
    (∀ (fuel : Nat) (stop : Stop) (ctx : Nat) (st st' : St),
      stop_ok stop → parse_until fuel text defs stop ctx st = .bad st' →
      frames_ok st → frames_ok st') ∧
    (∀ (fuel : Nat) (st : St) (fr : List Token) (c : Nat)
        (rest : List (List Token × Nat)) (st' : St),
      st.frames = (fr, c) :: rest →
      read text st.head 0 false = .chr '{' → read text st.head 1 false = .chr '{' →
      parse_template fuel text defs st = .ok () st' →
      frames_ok st → frames_ok st') ∧
    (∀ (fuel : Nat) (st : St) (fr : List Token) (c : Nat)
        (rest : List (List Token × Nat)) (st' : St),
      st.frames = (fr, c) :: rest → read text st.head 0 false = .chr '&' →
      parse_entity fuel text defs st = .ok () st' →
      frames_ok st → frames_ok st') ∧
    (∀ (toks : List Token) (st' : St), tokenize text defs = .ok toks st' →
      no_adjacent_text toks ∧ frames_ok st') := by
  refine ⟨?_, ?_, ?_, ?_, ?_, ?_, ?_, ?_, ?_, ?_, ?_⟩
  · intro tok st st' hw hok
    rcases hfr : st.frames with _ | ⟨⟨fr, c⟩, rest⟩
    · simp [write, hfr] at hw
    · rw [write_cons hfr tok] at hw
      injection hw with _ h2
      subst h2
      intro p hp
      dsimp only at hp
      rcases List.mem_cons.mp hp with hp | hp
      · rw [hp]
        exact no_adjacent_text_write_token tok
          (hok (fr, c) (by rw [hfr]; exact List.mem_cons_self _ _))
      · exact hok p (by rw [hfr]; exact List.mem_cons_of_mem _ hp)
  · intro tokenlist st st' fr c rest h hw hlist hj hok
    rw [write_all_cons h tokenlist] at hw
    injection hw with _ h2
    subst h2
    intro p hp
    dsimp only at hp
    rcases List.mem_cons.mp hp with hp | hp
    · rw [hp]
      exact no_adjacent_text_append
        (hok (fr, c) (by rw [h]; exact List.mem_cons_self _ _)) hlist hj
    · exact hok p (by rw [h]; exact List.mem_cons_of_mem _ hp)
  · intro fr
    rw [@write_token_of_marker Token.TemplateOpen rfl fr]
    exact List.getLast?_concat _
  · intro fuel st st1 hx
    obtain ⟨efr, hf, _, _, _, _, _, hhead⟩ :=
      (parse_entity_body_spec text defs fuel st).1 st1 hx
    exact ⟨efr, hf, hhead⟩
  · intro fuel stop st fr c rest toks st' hso h hx hok
    obtain ⟨g1, _, g3, _, _, _⟩ :=
      ((engine_spec text defs fuel).1 stop st fr c rest hso h).1 toks st' hx
    refine ⟨g3 (hok (fr, c) (by rw [h]; exact List.mem_cons_self _ _)), ?_⟩
    intro p hp
    rw [g1] at hp
    exact hok p (by rw [h]; exact List.mem_cons_of_mem _ hp)
  · intro fuel stop st fr c rest st' hso h hx hok
    have g1 := ((engine_spec text defs fuel).1 stop st fr c rest hso h).2.1 st' hx
    intro p hp
    rw [g1] at hp
    exact hok p (by rw [h]; exact List.mem_cons_of_mem _ hp)
  · intro fuel stop ctx st toks st' hso hx hok
    obtain ⟨g1, _, g3, _, _, _⟩ :=
      ((engine_spec text defs fuel).2.1 stop ctx st hso).1 toks st' hx
    refine ⟨g3, ?_⟩
    intro p hp
    rw [g1] at hp
    exact hok p hp
  · intro fuel stop ctx st st' hso hx hok
    have g1 := ((engine_spec text defs fuel).2.1 stop ctx st hso).2.1 st' hx
    intro p hp
    rw [g1] at hp
    exact hok p hp
  · intro fuel st fr c rest st' h hr0 hr1 hx hok
    obtain ⟨fr', hfr', _, _, _, hna, _⟩ :=
      ((engine_spec text defs fuel).2.2 st fr c rest h hr0 hr1).1 st' hx
    intro p hp
    rw [hfr'] at hp
    rcases List.mem_cons.mp hp with hp | hp
    · rw [hp]
      exact hna (hok (fr, c) (by rw [h]; exact List.mem_cons_self _ _))
    · exact hok p (by rw [h]; exact List.mem_cons_of_mem _ hp)
  · intro fuel st fr c rest st' h hr hx hok
    obtain ⟨fr', hfr', _, _, _, hna, _⟩ :=
      (parse_entity_spec text defs fuel st fr c rest h hr).1 st' hx
    intro p hp
    rw [hfr'] at hp
    rcases List.mem_cons.mp hp with hp | hp
    · rw [hp]
      exact hna (hok (fr, c) (by rw [h]; exact List.mem_cons_self _ _))
    · exact hok p (by rw [h]; exact List.mem_cons_of_mem _ hp)
  · intro toks st' hx
    obtain ⟨_, hna, _, hfr⟩ := (tokenize_cases text defs).1 toks st' hx
    refine ⟨hna, ?_⟩
    intro p hp
    rw [hfr] at hp
    simp at hp

theorem no_adjacent_text_invariant_witness :
    no_adjacent_text [Token.TemplateOpen, Token.Text ['a'], Token.TemplateClose] ∧
    frames_ok ⟨5, []⟩ :=
  (no_adjacent_text_invariant ['{', '{', 'a', '}', '}']
    []).2.2.2.2.2.2.2.2.2.2 _ ⟨5, []⟩ rfl

/-- C10: the frame stack is balanced. Every `parse_until` run returns
(normally or by `BadRoute`) with exactly the frames it was started on —
the frame it pushes is consumed by the final pop or by the raising pop;
an entity sub-parse preserves the stack shape below the parent frame; the
top-level `tokenize` ends with an empty stack; and no path ever pops or
writes on an empty stack (`IndexError` is never raised). -/
theorem frame_stack_balance (text : List Char) (defs : List (List Char)) :
    (∀ (fuel : Nat) (stop : Stop) (ctx : Nat) (st : St) (toks : List Token) (st' : St),
      stop_ok stop → parse_until fuel text defs stop ctx st = .ok toks st' →
      st'.frames = st.frames) ∧
    (∀ (fuel : Nat) (stop : Stop) (ctx : Nat) (st st' : St),
      stop_ok stop → parse_until fuel text defs stop ctx st = .bad st' →
      st'.frames = st.frames) ∧
    (∀ (fuel : Nat) (st : St) (fr : List Token) (c : Nat)
        (rest : List (List Token × Nat)) (st' : St),
      st.frames = (fr, c) :: rest → read text st.head 0 false = .chr '&' →
      parse_entity fuel text defs st = .ok () st' →
      ∃ fr', st'.frames = (fr', c) :: rest) ∧
    (∀ (toks : List Token) (st' : St), tokenize text defs = .ok toks st' →
      st'.frames = []) ∧
    (∀ e, tokenize text defs = .err e → e ≠ .indexError) := by
  refine ⟨?_, ?_, ?_, ?_, (tokenize_cases text defs).2.2⟩
  · intro fuel stop ctx st toks st' hso hx
    exact (((engine_spec text defs fuel).2.1 stop ctx st hso).1 toks st' hx).1
  · intro fuel stop ctx st st' hso hx
    exact ((engine_spec text defs fuel).2.1 stop ctx st hso).2.1 st' hx
  · intro fuel st fr c rest st' h hr hx
    obtain ⟨fr', hfr', _⟩ := (parse_entity_spec text defs fuel st fr c rest h hr).1 st' hx
    exact ⟨fr', hfr'⟩
  · intro toks st' hx
    exact ((tokenize_cases text defs).1 toks st' hx).2.2.2

theorem frame_stack_balance_witness :
    St.frames ⟨5, []⟩ = ([] : List (List Token × Nat)) ∧
    St.frames ⟨2, [([], 0)]⟩ = [([], 0)] :=
  ⟨(frame_stack_balance ['{', '{', 'a', '}', '}'] []).2.2.2.1 _ ⟨5, []⟩ rfl,
   (frame_stack_balance ['{', '{'] []).2.1 10 (.lit ['}', '}']) contexts.TEMPLATE_NAME
     ⟨2, [([], 0)]⟩ ⟨2, [([], 0)]⟩ (by simp [stop_ok]) rfl⟩

end Tokenizer
